import Mathlib

/-!
A Lean model of the marianmeres/rbac TypeScript library (the class in
src/mod.ts), together with theorems about its permission-resolution,
decision, mutation and serialization behaviour.

JS data structures are modelled as follows.

* A JS Set of strings is an insertion-ordered duplicate-free list:
  Set.add appends when absent, Set.delete filters, and Set.union returns a
  new set holding the elements of the left operand followed by the fresh
  elements of the right one.
* A JS Map is an insertion-ordered association list: Map.set overwrites in
  place when the key exists and appends otherwise, Map.delete filters,
  Map.get returns the first match.
* A thrown JS Error is modelled by returning its message alongside the
  store state at throw time (a JS exception does not roll back mutations
  already performed); the toString form of an Error is the text
  "Error: " followed by its message, which matters for the wrapping
  performed by restore.
* The dump is modelled at the structured-document level (the RbacDump
  object produced by toJSON and accepted by restore); JSON.stringify and
  JSON.parse are assumed to be mutually inverse on such documents.
-/

namespace RbacSpec

/-- JS Set.prototype.add: append the element when it is not yet present. -/
def sadd (s : List String) (x : String) : List String :=
  if s.contains x then s else s ++ [x]

/-- JS Set.prototype.delete: remove the element. -/
def sdel (s : List String) (x : String) : List String :=
  s.filter (fun y => y != x)

/-- Repeated Set.prototype.add over a list (a forEach add loop). -/
def saddAll (s : List String) (xs : List String) : List String :=
  xs.foldl sadd s

/-- JS Set.prototype.union: a new set with the elements of the first
operand followed by the fresh elements of the second. -/
def sunion (a b : List String) : List String :=
  b.foldl sadd a

/-- JS Map.prototype.get: value of the first entry with the given key. -/
def mget {α : Type} (m : List (String × α)) (k : String) : Option α :=
  (m.find? (fun p => p.1 == k)).map (fun p => p.2)

/-- JS Map.prototype.has. -/
def mhas {α : Type} (m : List (String × α)) (k : String) : Bool :=
  m.any (fun p => p.1 == k)

/-- JS Map.prototype.set: overwrite in place when the key exists, append
otherwise. -/
def mset {α : Type} (m : List (String × α)) (k : String) (v : α) :
    List (String × α) :=
  if mhas m k then m.map (fun p => if p.1 == k then (k, v) else p)
  else m ++ [(k, v)]

/-- JS Map.prototype.delete. -/
def mdel {α : Type} (m : List (String × α)) (k : String) :
    List (String × α) :=
  m.filter (fun p => p.1 != k)

/-- JS Map.prototype.keys as a list. -/
def keys {α : Type} (m : List (String × α)) : List String :=
  m.map (fun p => p.1)

/-- Internal roles data structure (interface RbacRoleInternal). -/
structure RbacRoleInternal where
  permissions : List String
  memberOf : List String
deriving Repr, DecidableEq

/-- Internal groups data structure (interface RbacGroupInternal). -/
structure RbacGroupInternal where
  permissions : List String
deriving Repr, DecidableEq

/-- The ABAC subject: at least a role identifier plus arbitrary further
attributes, here abstracted by a type parameter. -/
structure RbacSubject (α : Type) where
  role : String
  attrs : α

/-- Rule function type (RbacRuleFunction): subject, optional resource and
optional context to a boolean. -/
def RbacRuleFunction (α β γ : Type) : Type :=
  RbacSubject α → Option β → Option γ → Bool

/-- The Rbac class state: the three private maps #roles, #groups, #rules. -/
structure Rbac (α β γ : Type) where
  roles : List (String × RbacRoleInternal)
  groups : List (String × RbacGroupInternal)
  rules : List (String × RbacRuleFunction α β γ)

namespace Rbac

/-- The freshly constructed instance: new Rbac(). -/
def empty {α β γ : Type} : Rbac α β γ := ⟨[], [], []⟩

/-- The groupNames.forEach loop of addRole: check that the group exists
(throwing the error otherwise, with the role record as mutated so far)
and add it to memberOf.  The error message of the thrown Error is
returned in the second component. -/
def addRoleGroups (groups : List (String × RbacGroupInternal))
    (role : RbacRoleInternal) :
    List String → RbacRoleInternal × Option String
  | [] => (role, none)
  | g :: rest =>
    if mhas groups g then
      addRoleGroups groups { role with memberOf := sadd role.memberOf g } rest
    else
      (role, some ("Group \x27" ++ g ++ "\x27 does not exist"))

/-- addRole: initializes the role (#initRole creates an empty record when
absent), adds the permissions, then walks groupNames checking existence
and adding memberships.  The second component is the message of the
thrown Error, if any; the first component is the store state at return or
at throw time (JS exceptions do not undo the mutations already made). -/
def addRole {α β γ : Type} (st : Rbac α β γ) (name : String)
    (permissions : List String) (groupNames : List String) :
    Rbac α β γ × Option String :=
  let role := (mget st.roles name).getD ⟨[], []⟩
  let role := { role with permissions := saddAll role.permissions permissions }
  let res := addRoleGroups st.groups role groupNames
  ({ st with roles := mset st.roles name res.1 }, res.2)

/-- removeRolePermissions: when the role exists, delete each listed
permission from it. -/
def removeRolePermissions {α β γ : Type} (st : Rbac α β γ) (name : String)
    (permissions : List String) : Rbac α β γ :=
  match mget st.roles name with
  | some role =>
    let role2 := { role with permissions := permissions.foldl sdel role.permissions }
    { st with roles := mset st.roles name role2 }
  | none => st

/-- removeRole: delete the role entirely. -/
def removeRole {α β γ : Type} (st : Rbac α β γ) (name : String) :
    Rbac α β γ :=
  { st with roles := mdel st.roles name }

/-- hasRole. -/
def hasRole {α β γ : Type} (st : Rbac α β γ) (name : String) : Bool :=
  mhas st.roles name

/-- getRoles. -/
def getRoles {α β γ : Type} (st : Rbac α β γ) : List String :=
  keys st.roles

/-- addGroup: initializes the group (#initGroup creates an empty record
when absent) and adds the permissions.  Never fails. -/
def addGroup {α β γ : Type} (st : Rbac α β γ) (name : String)
    (permissions : List String) : Rbac α β γ :=
  let group := (mget st.groups name).getD ⟨[]⟩
  let group := RbacGroupInternal.mk (saddAll group.permissions permissions)
  { st with groups := mset st.groups name group }

/-- removeGroupPermissions: when the group exists, delete each listed
permission from it. -/
def removeGroupPermissions {α β γ : Type} (st : Rbac α β γ) (name : String)
    (permissions : List String) : Rbac α β γ :=
  match mget st.groups name with
  | some group =>
    let group2 := RbacGroupInternal.mk (permissions.foldl sdel group.permissions)
    { st with groups := mset st.groups name group2 }
  | none => st

/-- removeGroup: delete the group, then remove its name from the memberOf
set of every role. -/
def removeGroup {α β γ : Type} (st : Rbac α β γ) (name : String) :
    Rbac α β γ :=
  { st with
    groups := mdel st.groups name
    roles := st.roles.map
      (fun p => (p.1, { p.2 with memberOf := sdel p.2.memberOf name })) }

/-- hasGroup. -/
def hasGroup {α β γ : Type} (st : Rbac α β γ) (name : String) : Bool :=
  mhas st.groups name

/-- getGroups. -/
def getGroups {α β γ : Type} (st : Rbac α β γ) : List String :=
  keys st.groups

/-- addRoleToGroup: throws the group-not-found error when the group is
absent (before touching the store); otherwise initializes the role and
adds the membership. -/
def addRoleToGroup {α β γ : Type} (st : Rbac α β γ)
    (roleName groupName : String) : Rbac α β γ × Option String :=
  if !(mhas st.groups groupName) then
    (st, some ("Group \x27" ++ groupName ++ "\x27 does not exist"))
  else
    let role := (mget st.roles roleName).getD ⟨[], []⟩
    let role2 := { role with memberOf := sadd role.memberOf groupName }
    ({ st with roles := mset st.roles roleName role2 }, none)

/-- removeRoleFromGroup: when the role exists, delete the membership. -/
def removeRoleFromGroup {α β γ : Type} (st : Rbac α β γ)
    (roleName groupName : String) : Rbac α β γ :=
  match mget st.roles roleName with
  | some role =>
    let role2 := { role with memberOf := sdel role.memberOf groupName }
    { st with roles := mset st.roles roleName role2 }
  | none => st

/-- The for-loop of getPermissions: union into the accumulator the
permission set of each member group that still exists. -/
def collectGroupPerms (groups : List (String × RbacGroupInternal))
    (out : List String) : List String → List String
  | [] => out
  | g :: rest =>
    match mget groups g with
    | some group => collectGroupPerms groups (sunion out group.permissions) rest
    | none => collectGroupPerms groups out rest

/-- getPermissions: empty set for an unknown role; otherwise the union of
the still-existing member groups followed by the role's own
permissions. -/
def getPermissions {α β γ : Type} (st : Rbac α β γ) (roleName : String) :
    List String :=
  match mget st.roles roleName with
  | none => []
  | some role =>
    sunion (collectGroupPerms st.groups [] role.memberOf) role.permissions

/-- hasPermission: membership test on getPermissions. -/
def hasPermission {α β γ : Type} (st : Rbac α β γ)
    (roleName permission : String) : Bool :=
  (getPermissions st roleName).contains permission

/-- hasSomePermission: true when at least one of the queried permissions
is in the resolved set. -/
def hasSomePermission {α β γ : Type} (st : Rbac α β γ) (roleName : String)
    (permissions : List String) : Bool :=
  let all := getPermissions st roleName
  permissions.any (fun p => all.contains p)

/-- addRule: register, last write wins. -/
def addRule {α β γ : Type} (st : Rbac α β γ) (permission : String)
    (rule : RbacRuleFunction α β γ) : Rbac α β γ :=
  { st with rules := mset st.rules permission rule }

/-- removeRule. -/
def removeRule {α β γ : Type} (st : Rbac α β γ) (permission : String) :
    Rbac α β γ :=
  { st with rules := mdel st.rules permission }

/-- hasRule. -/
def hasRule {α β γ : Type} (st : Rbac α β γ) (permission : String) : Bool :=
  mhas st.rules permission

/-- getRules. -/
def getRules {α β γ : Type} (st : Rbac α β γ) : List String :=
  keys st.rules

/-- can: the RBAC gate first, then rule pass-through.  The source checks
#rules.has and then reads #rules.get with a non-null assertion; matching
on the Map.get result is equivalent because has is false exactly when get
is none. -/
def can {α β γ : Type} (st : Rbac α β γ) (subject : RbacSubject α)
    (permission : String) (resource : Option β) (context : Option γ) :
    Bool :=
  if !(hasPermission st subject.role permission) then false
  else
    match mget st.rules permission with
    | none => true
    | some rule => rule subject resource context

/-- The role section of a dump; absent fields are Option.none (the source
types them as Partial and the callee defaults an undefined argument to
the empty list). -/
structure DumpRole where
  permissions : Option (List String)
  memberOf : Option (List String)
deriving Repr, DecidableEq

/-- The group section entry of a dump. -/
structure DumpGroup where
  permissions : Option (List String)
deriving Repr, DecidableEq

/-- The serializable dump document (interface RbacDump). -/
structure RbacDump where
  roles : List (String × DumpRole)
  groups : List (String × DumpGroup)
deriving Repr, DecidableEq

/-- toJSON: spread every internal Set into an array, keeping Map and Set
iteration (insertion) order; rules are not included. -/
def toJSON {α β γ : Type} (st : Rbac α β γ) : RbacDump :=
  { roles := st.roles.map
      (fun p => (p.1, DumpRole.mk (some p.2.permissions) (some p.2.memberOf)))
    groups := st.groups.map
      (fun p => (p.1, DumpGroup.mk (some p.2.permissions))) }

/-- The roles loop of restore: addRole for each entry; the first thrown
error aborts the whole call, wrapped as by the catch clause (the JS
template literal stringifies the Error, producing the "Error: " prefix);
the partially built instance is discarded. -/
def restoreRoles {α β γ : Type} (st : Rbac α β γ) :
    List (String × DumpRole) → Except String (Rbac α β γ)
  | [] => Except.ok st
  | (name, o) :: rest =>
    match addRole st name (o.permissions.getD []) (o.memberOf.getD []) with
    | (st2, none) => restoreRoles st2 rest
    | (_, some e) => Except.error ("Unable to restore dump: Error: " ++ e)

/-- restore: build a fresh instance, add every group of the groups
section, then add every role of the roles section; any error is wrapped
as "Unable to restore dump: ...". -/
def restore {α β γ : Type} (d : RbacDump) : Except String (Rbac α β γ) :=
  let st := d.groups.foldl
    (fun st p => addGroup st p.1 (p.2.permissions.getD [])) empty
  restoreRoles st d.roles

end Rbac

/-!
An allocation-instrumented model of getPermissions, used to verify that
the returned set is a fresh snapshot rather than an alias of a set owned
by the store.  Every JS Set carries an allocation identity; "new Set()"
and Set.prototype.union allocate fresh identities (union returns a new
set), while Map.prototype.get and Set iteration return the stored sets
themselves.  A caller-side mutation of a set writes through its identity
to every alias.
-/

/-- A JS Set of strings together with its allocation identity. -/
structure HSet where
  sid : Nat
  elems : List String
deriving Repr, DecidableEq

/-- A role record whose sets carry identities. -/
structure HRole where
  permissions : HSet
  memberOf : HSet
deriving Repr, DecidableEq

/-- A group record whose set carries an identity. -/
structure HGroup where
  permissions : HSet
deriving Repr, DecidableEq

/-- The #roles and #groups maps with identity-carrying sets. -/
structure HStore where
  roles : List (String × HRole)
  groups : List (String × HGroup)
deriving Repr, DecidableEq

/-- The allocation identities of every set owned by the store. -/
def HStore.setIds (st : HStore) : List Nat :=
  st.roles.map (fun p => p.2.permissions.sid) ++
    st.roles.map (fun p => p.2.memberOf.sid) ++
    st.groups.map (fun p => p.2.permissions.sid)

/-- Set.prototype.union with allocation: the result is a new set carrying
the next fresh identity; the counter advances. -/
def hunion (a b : HSet) (c : Nat) : HSet × Nat :=
  (⟨c, sunion a.elems b.elems⟩, c + 1)

/-- The for-loop of getPermissions in the instrumented model. -/
def collectGroupPermsH (groups : List (String × HGroup)) (out : HSet)
    (c : Nat) : List String → HSet × Nat
  | [] => (out, c)
  | g :: rest =>
    match mget groups g with
    | some group =>
      let r := hunion out group.permissions c
      collectGroupPermsH groups r.1 r.2 rest
    | none => collectGroupPermsH groups out c rest

/-- getPermissions in the instrumented model: "let out = new Set()"
allocates, then the group loop, then the final union with the role's own
permissions.  Only reads of the store occur. -/
def getPermissionsH (st : HStore) (roleName : String) (c : Nat) :
    HSet × Nat :=
  let out : HSet := ⟨c, []⟩
  let c := c + 1
  match mget st.roles roleName with
  | none => (out, c)
  | some role =>
    let r := collectGroupPermsH st.groups out c role.memberOf.elems
    hunion r.1 role.permissions r.2

/-- Write through an aliased set: replace the element list of a set when
its identity matches the written one. -/
def HSet.write (s : HSet) (i : Nat) (f : List String → List String) : HSet :=
  if s.sid == i then ⟨s.sid, f s.elems⟩ else s

/-- The effect on the whole store of a caller mutating the set with
identity i (all aliases are updated). -/
def HStore.write (st : HStore) (i : Nat) (f : List String → List String) :
    HStore :=
  { roles := st.roles.map
      (fun p => (p.1, HRole.mk (p.2.permissions.write i f) (p.2.memberOf.write i f)))
    groups := st.groups.map
      (fun p => (p.1, HGroup.mk (p.2.permissions.write i f))) }

/-- Forget the allocation identities, recovering the plain model. -/
def HStore.toRbac (st : HStore) : Rbac Unit Unit Unit :=
  { roles := st.roles.map
      (fun p => (p.1, RbacRoleInternal.mk p.2.permissions.elems p.2.memberOf.elems))
    groups := st.groups.map
      (fun p => (p.1, RbacGroupInternal.mk p.2.permissions.elems))
    rules := [] }

/-- Well-formedness invariants maintained by every reachable store: map
keys are unique, every internal set is duplicate-free, and every group
name in a role's memberOf set names an existing group. -/
structure WF {α β γ : Type} (st : Rbac α β γ) : Prop where
  rolesKeysNodup : (keys st.roles).Nodup
  groupsKeysNodup : (keys st.groups).Nodup
  rolePermsNodup : ∀ n role, (n, role) ∈ st.roles → role.permissions.Nodup
  roleMemberNodup : ∀ n role, (n, role) ∈ st.roles → role.memberOf.Nodup
  groupPermsNodup : ∀ n grp, (n, grp) ∈ st.groups → grp.permissions.Nodup
  memberOfExists : ∀ n role, (n, role) ∈ st.roles → ∀ g ∈ role.memberOf,
    mhas st.groups g = true

/-- Stores built from the fresh instance by any sequence of the mutation
operations, including failing calls (which may still have mutated). -/
inductive Reachable {α β γ : Type} : Rbac α β γ → Prop where
  | base : Reachable Rbac.empty
  | addRoleStep (st : Rbac α β γ) (n : String) (ps gs : List String) :
      Reachable st → Reachable (Rbac.addRole st n ps gs).1
  | removeRolePermissionsStep (st : Rbac α β γ) (n : String)
      (ps : List String) :
      Reachable st → Reachable (Rbac.removeRolePermissions st n ps)
  | removeRoleStep (st : Rbac α β γ) (n : String) :
      Reachable st → Reachable (Rbac.removeRole st n)
  | addGroupStep (st : Rbac α β γ) (n : String) (ps : List String) :
      Reachable st → Reachable (Rbac.addGroup st n ps)
  | removeGroupPermissionsStep (st : Rbac α β γ) (n : String)
      (ps : List String) :
      Reachable st → Reachable (Rbac.removeGroupPermissions st n ps)
  | removeGroupStep (st : Rbac α β γ) (n : String) :
      Reachable st → Reachable (Rbac.removeGroup st n)
  | addRoleToGroupStep (st : Rbac α β γ) (rn gn : String) :
      Reachable st → Reachable (Rbac.addRoleToGroup st rn gn).1
  | removeRoleFromGroupStep (st : Rbac α β γ) (rn gn : String) :
      Reachable st → Reachable (Rbac.removeRoleFromGroup st rn gn)
  | addRuleStep (st : Rbac α β γ) (p : String) (f : RbacRuleFunction α β γ) :
      Reachable st → Reachable (Rbac.addRule st p f)
  | removeRuleStep (st : Rbac α β γ) (p : String) :
      Reachable st → Reachable (Rbac.removeRule st p)

/-!  Concrete stores used by the witnesses. -/

open Rbac in
/-- Groups g1 with a, g2 with b; role r with own permission c, member of
both; a ghost-free store for resolution witnesses. -/
def egResolve : Rbac Unit Unit Unit :=
  (addRole (addGroup (addGroup empty "g1" ["a"]) "g2" ["b"]) "r" ["c"] ["g1", "g2"]).1

open Rbac in
/-- Role writer with permissions w and wf; an always-true rule on x (which
writer does not have) and an always-false rule on wf (which it has). -/
def egGate : Rbac Unit Unit Unit :=
  addRule (addRule (addRole empty "writer" ["w", "wf"] []).1 "x" (fun _ _ _ => true))
    "wf" (fun _ _ _ => false)

open Rbac in
/-- Group g with p; role r member of g with no own permissions. -/
def egCascade : Rbac Unit Unit Unit :=
  (addRole (addGroup empty "g" ["p"]) "r" [] ["g"]).1

open Rbac in
/-- A reachable store exercising every kind of mutation, used by the
round-trip witness. -/
def egBuilt : Rbac Unit Unit Unit :=
  let s := addGroup (addGroup empty "g1" ["a", "b"]) "g2" ["b", "c"]
  let s := (addRole s "r1" ["d"] ["g1"]).1
  let s := (addRoleToGroup s "r2" "g2").1
  let s := removeGroupPermissions (removeRolePermissions s "r1" ["d"]) "g1" ["b"]
  let s := removeGroup (removeRole (addGroup s "g3" ["e"]) "r2") "g3"
  addRule s "a" (fun _ _ _ => false)

/-- A concrete instrumented store: role r (own permissions with id 0,
memberOf with id 1) and group g (permissions with id 2). -/
def egHStore : HStore :=
  { roles := [("r", HRole.mk (HSet.mk 0 ["c"]) (HSet.mk 1 ["g"]))]
    groups := [("g", HGroup.mk (HSet.mk 2 ["a"]))] }

/-- A malformed dump: role r is member of a group g that the groups
section does not define. -/
def egBadDump : Rbac.RbacDump :=
  ⟨[("r", ⟨none, some ["g"]⟩)], []⟩

/-- A well-formed dump: role r is member of group g, which the groups
section defines. -/
def egGoodDump : Rbac.RbacDump :=
  ⟨[("r", ⟨some ["p"], some ["g"]⟩)], [("g", ⟨some ["p"]⟩)]⟩

/-!  Lemmas about the Set primitives. -/

theorem mem_sadd {s : List String} {x y : String} :
    y ∈ sadd s x ↔ y ∈ s ∨ y = x := by
  unfold sadd
  by_cases h : x ∈ s <;> simp [h]
  rintro rfl
  exact h

theorem sadd_of_mem {s : List String} {x : String} (h : x ∈ s) :
    sadd s x = s := by
  simp [sadd, h]

theorem nodup_sadd {s : List String} {x : String} (h : s.Nodup) :
    (sadd s x).Nodup := by
  unfold sadd
  by_cases hx : x ∈ s <;> simp [hx, h]
  exact (List.nodup_append_comm.mpr (by simp [h, hx]))

theorem mem_saddAll {xs : List String} :
    ∀ {s : List String} {y : String}, y ∈ saddAll s xs ↔ y ∈ s ∨ y ∈ xs := by
  induction xs with
  | nil => simp [saddAll]
  | cons x rest ih =>
    intro s y
    have : saddAll s (x :: rest) = saddAll (sadd s x) rest := rfl
    rw [this, ih, mem_sadd]
    simp
    tauto

theorem nodup_saddAll {xs : List String} :
    ∀ {s : List String}, s.Nodup → (saddAll s xs).Nodup := by
  induction xs with
  | nil => intro s h; simpa [saddAll] using h
  | cons x rest ih =>
    intro s h
    have : saddAll s (x :: rest) = saddAll (sadd s x) rest := rfl
    rw [this]
    exact ih (nodup_sadd h)

theorem saddAll_of_subset {xs : List String} :
    ∀ {s : List String}, (∀ x ∈ xs, x ∈ s) → saddAll s xs = s := by
  induction xs with
  | nil => intro s _; rfl
  | cons x rest ih =>
    intro s h
    have hx : x ∈ s := h x (by simp)
    have : saddAll s (x :: rest) = saddAll (sadd s x) rest := rfl
    rw [this, sadd_of_mem hx]
    exact ih (fun y hy => h y (by simp [hy]))

theorem saddAll_of_disjoint {xs : List String} :
    ∀ {s : List String}, (∀ x ∈ xs, x ∉ s) → xs.Nodup →
      saddAll s xs = s ++ xs := by
  induction xs with
  | nil => intro s _ _; simp [saddAll]
  | cons x rest ih =>
    intro s hdisj hnd
    have hx : x ∉ s := hdisj x (by simp)
    have step : saddAll s (x :: rest) = saddAll (sadd s x) rest := rfl
    have hadd : sadd s x = s ++ [x] := by
      simp [sadd, hx]
    rw [step, hadd, ih, List.append_assoc]
    · rfl
    · intro y hy
      simp only [List.mem_append, List.mem_singleton]
      rintro (hs | rfl)
      · exact hdisj y (by simp [hy]) hs
      · exact (List.nodup_cons.mp hnd).1 hy
    · exact (List.nodup_cons.mp hnd).2

theorem saddAll_nil {xs : List String} (h : xs.Nodup) :
    saddAll [] xs = xs := by
  have := @saddAll_of_disjoint xs [] (by simp) h
  simpa using this

theorem saddAll_saddAll {s xs : List String} :
    saddAll (saddAll s xs) xs = saddAll s xs :=
  saddAll_of_subset (fun x hx => mem_saddAll.mpr (Or.inr hx))

theorem mem_sunion {a b : List String} {y : String} :
    y ∈ sunion a b ↔ y ∈ a ∨ y ∈ b :=
  mem_saddAll

theorem nodup_sunion {a b : List String} (h : a.Nodup) :
    (sunion a b).Nodup :=
  nodup_saddAll h

theorem mem_sdel {s : List String} {x y : String} :
    y ∈ sdel s x ↔ y ∈ s ∧ y ≠ x := by
  simp [sdel]

theorem nodup_sdel {s : List String} {x : String} (h : s.Nodup) :
    (sdel s x).Nodup :=
  List.Nodup.filter _ h

theorem nodup_foldl_sdel {ps : List String} :
    ∀ {s : List String}, s.Nodup → (ps.foldl sdel s).Nodup := by
  induction ps with
  | nil => intro s h; simpa using h
  | cons p rest ih =>
    intro s h
    have : (p :: rest).foldl sdel s = rest.foldl sdel (sdel s p) := rfl
    rw [this]
    exact ih (nodup_sdel h)


/-!  Lemmas about the Map primitives. -/

theorem mhas_iff {α : Type} {m : List (String × α)} {k : String} :
    mhas m k = true ↔ k ∈ keys m := by
  simp [mhas, keys, List.any_eq_true, List.mem_map, beq_iff_eq]

theorem mhas_eq_false {α : Type} {m : List (String × α)} {k : String} :
    mhas m k = false ↔ k ∉ keys m := by
  rw [← mhas_iff]
  cases mhas m k <;> simp

theorem mget_eq_none {α : Type} {m : List (String × α)} {k : String} :
    mget m k = none ↔ mhas m k = false := by
  simp [mget, mhas, List.find?_eq_none, List.any_eq_false]

theorem mget_cons_pos {α : Type} {p : String × α} {rest : List (String × α)}
    {k : String} (h : p.1 = k) : mget (p :: rest) k = some p.2 := by
  simp [mget, List.find?_cons_of_pos, h]

theorem mget_cons_neg {α : Type} {p : String × α} {rest : List (String × α)}
    {k : String} (h : ¬p.1 = k) : mget (p :: rest) k = mget rest k := by
  simp [mget, List.find?_cons_of_neg, h]

theorem mhas_cons {α : Type} {p : String × α} {rest : List (String × α)}
    {k : String} : mhas (p :: rest) k = ((p.1 == k) || mhas rest k) := by
  simp [mhas]

theorem mhas_append {α : Type} {a b : List (String × α)} {k : String} :
    mhas (a ++ b) k = (mhas a k || mhas b k) := by
  simp [mhas, List.any_append]

theorem mget_mem {α : Type} {m : List (String × α)} {k : String} {v : α}
    (h : mget m k = some v) : (k, v) ∈ m := by
  induction m with
  | nil => simp [mget] at h
  | cons p rest ih =>
    by_cases hp : p.1 = k
    · rw [mget_cons_pos hp] at h
      cases p
      simp at hp h
      subst hp
      subst h
      exact List.mem_cons_self _ _
    · rw [mget_cons_neg hp] at h
      exact List.mem_cons_of_mem _ (ih h)

theorem mget_mset_self {α : Type} {m : List (String × α)} {k : String}
    {v : α} : mget (mset m k v) k = some v := by
  unfold mset
  by_cases h : mhas m k
  · rw [if_pos h]
    induction m with
    | nil => simp [mhas] at h
    | cons p rest ih =>
      rw [List.map_cons]
      by_cases hp : p.1 = k
      · have hb : (p.1 == k) = true := by simpa using hp
        rw [hb]
        simp only [if_true]
        exact mget_cons_pos rfl
      · have hb : (p.1 == k) = false := by simpa using hp
        rw [hb]
        simp only [Bool.false_eq_true, if_false]
        rw [mget_cons_neg hp]
        apply ih
        rw [mhas_cons, hb] at h
        simpa using h
  · rw [if_neg h]
    induction m with
    | nil => exact mget_cons_pos rfl
    | cons p rest ih =>
      rw [mhas_cons] at h
      simp only [Bool.or_eq_true, not_or] at h
      rw [List.cons_append, mget_cons_neg (by simpa using h.1)]
      exact ih (by simpa using h.2)

theorem mget_mset_ne {α : Type} {m : List (String × α)} {k k2 : String}
    {v : α} (hne : ¬k2 = k) : mget (mset m k v) k2 = mget m k2 := by
  unfold mset
  by_cases h : mhas m k
  · rw [if_pos h]
    clear h
    induction m with
    | nil => simp
    | cons p rest ih =>
      rw [List.map_cons]
      by_cases hp : p.1 = k
      · have hb : (p.1 == k) = true := by simpa using hp
        rw [hb]
        simp only [if_true]
        have hkk2 : ¬(k = k2) := fun he => hne he.symm
        have hpk2 : ¬(p.1 = k2) := fun he => hne (by rw [← he, hp])
        rw [mget_cons_neg hkk2, mget_cons_neg hpk2]
        exact ih
      · have hb : (p.1 == k) = false := by simpa using hp
        rw [hb]
        simp only [Bool.false_eq_true, if_false]
        by_cases hp2 : p.1 = k2
        · rw [mget_cons_pos hp2, mget_cons_pos hp2]
        · rw [mget_cons_neg hp2, mget_cons_neg hp2]
          exact ih
  · rw [if_neg h]
    clear h
    induction m with
    | nil =>
      rw [List.nil_append]
      exact mget_cons_neg (fun he => hne he.symm)
    | cons p rest ih =>
      rw [List.cons_append]
      by_cases hp2 : p.1 = k2
      · rw [mget_cons_pos hp2, mget_cons_pos hp2]
      · rw [mget_cons_neg hp2, mget_cons_neg hp2]
        exact ih

theorem mhas_of_mget_some {α : Type} {m : List (String × α)} {k : String}
    {v : α} (h : mget m k = some v) : mhas m k = true := by
  by_contra hc
  simp only [Bool.not_eq_true] at hc
  rw [← mget_eq_none] at hc
  rw [h] at hc
  cases hc

theorem mhas_mset_self {α : Type} {m : List (String × α)} {k : String}
    {v : α} : mhas (mset m k v) k = true :=
  mhas_of_mget_some mget_mset_self

theorem mhas_mset {α : Type} {m : List (String × α)} {k k2 : String}
    {v : α} : mhas (mset m k v) k2 = (mhas m k2 || (k2 == k)) := by
  by_cases hk : k2 = k
  · subst hk
    rw [mhas_mset_self]
    simp
  · have hg : mget (mset m k v) k2 = mget m k2 := mget_mset_ne hk
    have hbe : (k2 == k) = false := by simpa using hk
    rw [hbe, Bool.or_false]
    rcases hm : mhas m k2 with _ | _
    · have := mget_eq_none.mpr hm
      rw [← hg, mget_eq_none] at this
      exact this
    · rcases hgm : mget m k2 with _ | u
      · rw [mget_eq_none, hm] at hgm
        cases hgm
      · exact mhas_of_mget_some (by rw [hg, hgm])

theorem keys_mset {α : Type} {m : List (String × α)} {k : String} {v : α} :
    keys (mset m k v) = if mhas m k then keys m else keys m ++ [k] := by
  unfold mset
  by_cases h : mhas m k
  · rw [if_pos h, if_pos h]
    simp only [keys, List.map_map]
    apply List.map_congr_left
    intro p _
    by_cases hp : p.1 = k <;> simp [hp]
  · rw [if_neg h, if_neg h]
    simp [keys]

theorem mset_mset {α : Type} {m : List (String × α)} {k : String}
    {v w : α} : mset (mset m k v) k w = mset m k w := by
  have hhas : mhas (mset m k v) k = true := mhas_mset_self
  unfold mset
  by_cases h : mhas m k
  · have h2 : mhas (List.map (fun p => if p.1 == k then (k, v) else p) m) k = true := by
      have := hhas
      unfold mset at this
      rw [if_pos h] at this
      exact this
    rw [if_pos h, if_pos h2, if_pos h, List.map_map]
    apply List.map_congr_left
    intro p _
    by_cases hp : p.1 = k <;> simp [hp]
  · have h2 : mhas (m ++ [(k, v)]) k = true := by
      have := hhas
      unfold mset at this
      rw [if_neg h] at this
      exact this
    rw [if_neg h, if_pos h2, if_neg h, List.map_append]
    congr 1
    · have hmap : List.map (fun p => if p.1 == k then (k, w) else p) m
          = List.map id m := by
        apply List.map_congr_left
        intro p hp
        have hpk : ¬ p.1 = k := by
          intro he
          exact h (mhas_iff.mpr (he ▸ List.mem_map_of_mem _ hp))
        have hp1 : (p.1 == k) = false := by simpa using hpk
        simp [hp1]
      rw [hmap, List.map_id]
    · simp

theorem mhas_mdel {α : Type} {m : List (String × α)} {k k2 : String} :
    mhas (mdel m k) k2 = if k2 = k then false else mhas m k2 := by
  unfold mdel
  induction m with
  | nil =>
    by_cases hk : k2 = k
    · rw [if_pos hk]
      simp [mhas]
    · rw [if_neg hk]
      simp
  | cons p rest ih =>
    by_cases hp : p.1 = k
    · rw [List.filter_cons_of_neg (by simp [hp]), ih]
      by_cases hk : k2 = k
      · rw [if_pos hk, if_pos hk]
      · have hpk2 : ¬ p.1 = k2 := by
          intro he
          apply hk
          rw [← he, hp]
        have hb : (p.1 == k2) = false := by simpa using hpk2
        rw [if_neg hk, if_neg hk, mhas_cons, hb, Bool.false_or]
    · rw [List.filter_cons_of_pos (by simpa using hp), mhas_cons, ih]
      by_cases hk : k2 = k
      · have hpk2 : ¬ p.1 = k2 := by
          intro he
          apply hp
          rw [he, hk]
        have hb : (p.1 == k2) = false := by simpa using hpk2
        rw [if_pos hk, if_pos hk, hb, Bool.false_or]
      · rw [if_neg hk, if_neg hk, mhas_cons]

theorem mget_mdel {α : Type} {m : List (String × α)} {k k2 : String} :
    mget (mdel m k) k2 = if k2 = k then none else mget m k2 := by
  unfold mdel
  induction m with
  | nil =>
    by_cases hk : k2 = k
    · rw [if_pos hk]
      simp [mget]
    · rw [if_neg hk]
      rfl
  | cons p rest ih =>
    by_cases hp : p.1 = k
    · rw [List.filter_cons_of_neg (by simp [hp]), ih]
      by_cases hk : k2 = k
      · rw [if_pos hk, if_pos hk]
      · have hpk2 : ¬ p.1 = k2 := by
          intro he
          apply hk
          rw [← he, hp]
        rw [if_neg hk, if_neg hk, mget_cons_neg hpk2]
    · rw [List.filter_cons_of_pos (by simpa using hp)]
      by_cases hk : k2 = k
      · have hpk2 : ¬ p.1 = k2 := by
          rw [hk]
          exact hp
        rw [mget_cons_neg hpk2, ih, if_pos hk, if_pos hk]
      · rw [if_neg hk]
        by_cases hp2 : p.1 = k2
        · rw [mget_cons_pos hp2, mget_cons_pos hp2]
        · rw [mget_cons_neg hp2, mget_cons_neg hp2, ih, if_neg hk]

theorem mem_mdel {α : Type} {m : List (String × α)} {k : String}
    {q : String × α} (h : q ∈ mdel m k) : q ∈ m :=
  List.mem_of_mem_filter h

theorem mem_mset {α : Type} {m : List (String × α)} {k : String} {v : α}
    {q : String × α} (h : q ∈ mset m k v) : q ∈ m ∨ q = (k, v) := by
  unfold mset at h
  by_cases hm : mhas m k
  · rw [if_pos hm] at h
    simp only [List.mem_map] at h
    rcases h with ⟨p, hp, rfl⟩
    by_cases hpk : p.1 = k
    · right
      simp [hpk]
    · left
      simpa [hpk] using hp
  · rw [if_neg hm] at h
    simp only [List.mem_append, List.mem_singleton] at h
    exact h

theorem mget_map_keyfix {α β : Type} {m : List (String × α)} {k : String}
    {f : String × α → String × β} (hf : ∀ p, (f p).1 = p.1) :
    mget (m.map f) k = (mget m k).map (fun v => (f (k, v)).2) := by
  induction m with
  | nil => simp [mget]
  | cons p rest ih =>
    by_cases hp : p.1 = k
    · cases p with
      | mk a b =>
        simp only at hp
        subst hp
        rw [List.map_cons, mget_cons_pos (by rw [hf]), mget_cons_pos rfl]
        rfl
    · rw [List.map_cons, mget_cons_neg (by rw [hf]; exact hp),
        mget_cons_neg hp, ih]

theorem keys_map_keyfix {α β : Type} {m : List (String × α)}
    {f : String × α → String × β} (hf : ∀ p, (f p).1 = p.1) :
    keys (m.map f) = keys m := by
  simp only [keys, List.map_map]
  apply List.map_congr_left
  intro p _
  exact hf p

theorem keys_mdel_sublist {α : Type} {m : List (String × α)} {k : String} :
    (keys (mdel m k)).Sublist (keys m) :=
  List.Sublist.map _ (List.filter_sublist m)

theorem nodup_keys_mset {α : Type} {m : List (String × α)} {k : String}
    {v : α} (h : (keys m).Nodup) : (keys (mset m k v)).Nodup := by
  rw [keys_mset]
  by_cases hm : mhas m k
  · rw [if_pos hm]
    exact h
  · have hk : k ∉ keys m := mhas_eq_false.mp (by simpa using hm)
    rw [if_neg hm]
    rw [List.nodup_append]
    refine ⟨h, by simp, ?_⟩
    intro a ha hmem
    rw [List.mem_singleton] at hmem
    subst hmem
    exact hk ha

theorem nodup_keys_mdel {α : Type} {m : List (String × α)} {k : String}
    (h : (keys m).Nodup) : (keys (mdel m k)).Nodup :=
  List.Nodup.sublist keys_mdel_sublist h


/-!  Characterization of the resolution engine. -/

theorem mem_collectGroupPerms {groups : List (String × RbacGroupInternal)}
    {gs : List String} :
    ∀ {acc : List String} {p : String},
      p ∈ Rbac.collectGroupPerms groups acc gs ↔
        p ∈ acc ∨ ∃ g ∈ gs, ∃ grp, mget groups g = some grp ∧
          p ∈ grp.permissions := by
  induction gs with
  | nil => simp [Rbac.collectGroupPerms]
  | cons g rest ih =>
    intro acc p
    rcases hg : mget groups g with _ | grp
    · have hstep : Rbac.collectGroupPerms groups acc (g :: rest)
          = Rbac.collectGroupPerms groups acc rest := by
        simp [Rbac.collectGroupPerms, hg]
      rw [hstep, ih]
      constructor
      · rintro (hacc | ⟨g2, hg2, grp2, hget2, hp2⟩)
        · exact Or.inl hacc
        · exact Or.inr ⟨g2, List.mem_cons_of_mem _ hg2, grp2, hget2, hp2⟩
      · rintro (hacc | ⟨g2, hg2, grp2, hget2, hp2⟩)
        · exact Or.inl hacc
        · rcases List.mem_cons.mp hg2 with rfl | hg2
          · rw [hg] at hget2
            cases hget2
          · exact Or.inr ⟨g2, hg2, grp2, hget2, hp2⟩
    · have hstep : Rbac.collectGroupPerms groups acc (g :: rest)
          = Rbac.collectGroupPerms groups (sunion acc grp.permissions) rest := by
        simp [Rbac.collectGroupPerms, hg]
      rw [hstep, ih, mem_sunion]
      constructor
      · rintro ((hacc | hgrp) | ⟨g2, hg2, grp2, hget2, hp2⟩)
        · exact Or.inl hacc
        · exact Or.inr ⟨g, List.mem_cons_self _ _, grp, hg, hgrp⟩
        · exact Or.inr ⟨g2, List.mem_cons_of_mem _ hg2, grp2, hget2, hp2⟩
      · rintro (hacc | ⟨g2, hg2, grp2, hget2, hp2⟩)
        · exact Or.inl (Or.inl hacc)
        · rcases List.mem_cons.mp hg2 with rfl | hg2
          · rw [hg] at hget2
            cases hget2
            exact Or.inl (Or.inr hp2)
          · exact Or.inr ⟨g2, hg2, grp2, hget2, hp2⟩

theorem mem_getPermissions {α β γ : Type} {st : Rbac α β γ}
    {r p : String} :
    p ∈ Rbac.getPermissions st r ↔
      ∃ role, mget st.roles r = some role ∧
        (p ∈ role.permissions ∨
          ∃ g ∈ role.memberOf, ∃ grp, mget st.groups g = some grp ∧
            p ∈ grp.permissions) := by
  rcases h : mget st.roles r with _ | role
  · simp [Rbac.getPermissions, h]
  · have hstep : Rbac.getPermissions st r
        = sunion (Rbac.collectGroupPerms st.groups [] role.memberOf)
            role.permissions := by
      simp [Rbac.getPermissions, h]
    rw [hstep, mem_sunion, mem_collectGroupPerms]
    simp only [List.not_mem_nil, false_or]
    constructor
    · rintro (hgrps | hown)
      · exact ⟨role, rfl, Or.inr hgrps⟩
      · exact ⟨role, rfl, Or.inl hown⟩
    · rintro ⟨role2, hrole2, hcases⟩
      cases hrole2
      rcases hcases with hown | ⟨g, hgmem, grp, hget, hp⟩
      · exact Or.inr hown
      · exact Or.inl ⟨g, hgmem, grp, hget, hp⟩

theorem hasPermission_iff {α β γ : Type} {st : Rbac α β γ}
    {r p : String} :
    Rbac.hasPermission st r p = true ↔
      ∃ role, mget st.roles r = some role ∧
        (p ∈ role.permissions ∨
          ∃ g ∈ role.memberOf, ∃ grp, mget st.groups g = some grp ∧
            p ∈ grp.permissions) := by
  rw [Rbac.hasPermission]
  rw [show ((Rbac.getPermissions st r).contains p = true) ↔
      p ∈ Rbac.getPermissions st r by simp]
  exact mem_getPermissions

/-- C1: getPermissions returns exactly the union of the permission sets of
the still-existing groups in the role's memberOf set together with the
role's own direct permissions, and returns the empty set (without error)
for an unknown role name. -/
theorem getPermissions_resolution_spec {α β γ : Type} (st : Rbac α β γ)
    (r : String) :
    (∀ p, p ∈ Rbac.getPermissions st r ↔
      ∃ role, mget st.roles r = some role ∧
        (p ∈ role.permissions ∨
          ∃ g ∈ role.memberOf, ∃ grp, mget st.groups g = some grp ∧
            p ∈ grp.permissions)) ∧
    (mget st.roles r = none → Rbac.getPermissions st r = []) := by
  constructor
  · intro p
    exact mem_getPermissions
  · intro h
    simp [Rbac.getPermissions, h]

/-- Witness for C1 at a concrete store: an inherited permission is in the
resolved set, and an unknown role resolves to the empty set. -/
theorem getPermissions_resolution_spec_witness :
    Rbac.getPermissions egResolve "ghost" = [] ∧
    "b" ∈ Rbac.getPermissions egResolve "r" := by
  constructor
  · exact (getPermissions_resolution_spec egResolve "ghost").2 (by decide)
  · exact ((getPermissions_resolution_spec egResolve "r").1 "b").mpr
      ⟨⟨["c"], ["g1", "g2"]⟩, by decide,
        Or.inr ⟨"g2", by decide, ⟨["b"]⟩, by decide, by decide⟩⟩

/-- C2: can is false whenever the RBAC gate hasPermission fails, whatever
rule map is installed (so no rule is consulted); with the gate passed it
is true when no rule is registered for the permission and is exactly the
rule's verdict when one is. -/
theorem can_two_phase_spec {α β γ : Type} (st : Rbac α β γ)
    (s : RbacSubject α) (p : String) (r : Option β) (c : Option γ) :
    (Rbac.hasPermission st s.role p = false →
      ∀ rules2, Rbac.can { st with rules := rules2 } s p r c = false) ∧
    (Rbac.hasPermission st s.role p = true → mget st.rules p = none →
      Rbac.can st s p r c = true) ∧
    (Rbac.hasPermission st s.role p = true →
      ∀ rule, mget st.rules p = some rule →
        Rbac.can st s p r c = rule s r c) := by
  refine ⟨?_, ?_, ?_⟩
  · intro h rules2
    have hsame : Rbac.hasPermission { st with rules := rules2 } s.role p
        = Rbac.hasPermission st s.role p := rfl
    unfold Rbac.can
    rw [hsame, h]
    simp
  · intro h hnone
    unfold Rbac.can
    rw [h, hnone]
    simp
  · intro h rule hsome
    unfold Rbac.can
    rw [h, hsome]
    simp

/-- Witness for C2 at a concrete store: the gate blocks a permission the
role lacks even though an always-true rule is registered on it; a held
permission with no rule passes; a held permission with an always-false
rule is denied by the rule. -/
theorem can_two_phase_spec_witness :
    Rbac.can egGate ⟨"writer", ()⟩ "x" none none = false ∧
    Rbac.can egGate ⟨"writer", ()⟩ "w" none none = true ∧
    Rbac.can egGate ⟨"writer", ()⟩ "wf" none none = false := by
  refine ⟨?_, ?_, ?_⟩
  · exact (can_two_phase_spec egGate ⟨"writer", ()⟩ "x" none none).1
      (by decide) egGate.rules
  · exact (can_two_phase_spec egGate ⟨"writer", ()⟩ "w" none none).2.1
      (by decide) (by rfl)
  · exact (can_two_phase_spec egGate ⟨"writer", ()⟩ "wf" none none).2.2
      (by decide) (fun _ _ _ => false) (by rfl)


/-!  Lemmas about addRole and its group-membership loop. -/

theorem addRole_eq {α β γ : Type} (st : Rbac α β γ) (n : String)
    (ps gs : List String) :
    Rbac.addRole st n ps gs =
      ({ st with roles := mset st.roles n (Rbac.addRoleGroups st.groups
          (RbacRoleInternal.mk
            (saddAll ((mget st.roles n).getD ⟨[], []⟩).permissions ps)
            ((mget st.roles n).getD ⟨[], []⟩).memberOf)
          gs).1 },
       (Rbac.addRoleGroups st.groups
         (RbacRoleInternal.mk
           (saddAll ((mget st.roles n).getD ⟨[], []⟩).permissions ps)
           ((mget st.roles n).getD ⟨[], []⟩).memberOf)
         gs).2) := rfl

theorem addRoleGroups_permissions
    {groups : List (String × RbacGroupInternal)} {gs : List String} :
    ∀ {role : RbacRoleInternal},
      (Rbac.addRoleGroups groups role gs).1.permissions = role.permissions := by
  induction gs with
  | nil => intro role; rfl
  | cons g rest ih =>
    intro role
    by_cases hg : mhas groups g
    · have hstep : Rbac.addRoleGroups groups role (g :: rest)
          = Rbac.addRoleGroups groups
              { role with memberOf := sadd role.memberOf g } rest := by
        simp [Rbac.addRoleGroups, hg]
      rw [hstep, ih]
    · have hstep : Rbac.addRoleGroups groups role (g :: rest)
          = (role, some ("Group \x27" ++ g ++ "\x27 does not exist")) := by
        simp [Rbac.addRoleGroups, hg]
      rw [hstep]

theorem addRoleGroups_memberOf_mono
    {groups : List (String × RbacGroupInternal)} {gs : List String} :
    ∀ {role : RbacRoleInternal} {x : String}, x ∈ role.memberOf →
      x ∈ (Rbac.addRoleGroups groups role gs).1.memberOf := by
  induction gs with
  | nil => intro role x hx; exact hx
  | cons g rest ih =>
    intro role x hx
    by_cases hg : mhas groups g
    · have hstep : Rbac.addRoleGroups groups role (g :: rest)
          = Rbac.addRoleGroups groups
              { role with memberOf := sadd role.memberOf g } rest := by
        simp [Rbac.addRoleGroups, hg]
      rw [hstep]
      exact ih (mem_sadd.mpr (Or.inl hx))
    · have hstep : Rbac.addRoleGroups groups role (g :: rest)
          = (role, some ("Group \x27" ++ g ++ "\x27 does not exist")) := by
        simp [Rbac.addRoleGroups, hg]
      rw [hstep]
      exact hx

theorem addRoleGroups_memberOf_sub
    {groups : List (String × RbacGroupInternal)} {gs : List String} :
    ∀ {role : RbacRoleInternal} {x : String},
      x ∈ (Rbac.addRoleGroups groups role gs).1.memberOf →
      x ∈ role.memberOf ∨ mhas groups x = true := by
  induction gs with
  | nil => intro role x hx; exact Or.inl hx
  | cons g rest ih =>
    intro role x hx
    by_cases hg : mhas groups g
    · have hstep : Rbac.addRoleGroups groups role (g :: rest)
          = Rbac.addRoleGroups groups
              { role with memberOf := sadd role.memberOf g } rest := by
        simp [Rbac.addRoleGroups, hg]
      rw [hstep] at hx
      rcases ih hx with hmem | hgx
      · rcases mem_sadd.mp hmem with hmem | rfl
        · exact Or.inl hmem
        · exact Or.inr hg
      · exact Or.inr hgx
    · have hstep : Rbac.addRoleGroups groups role (g :: rest)
          = (role, some ("Group \x27" ++ g ++ "\x27 does not exist")) := by
        simp [Rbac.addRoleGroups, hg]
      rw [hstep] at hx
      exact Or.inl hx

theorem addRoleGroups_memberOf_nodup
    {groups : List (String × RbacGroupInternal)} {gs : List String} :
    ∀ {role : RbacRoleInternal}, role.memberOf.Nodup →
      (Rbac.addRoleGroups groups role gs).1.memberOf.Nodup := by
  induction gs with
  | nil => intro role h; exact h
  | cons g rest ih =>
    intro role h
    by_cases hg : mhas groups g
    · have hstep : Rbac.addRoleGroups groups role (g :: rest)
          = Rbac.addRoleGroups groups
              { role with memberOf := sadd role.memberOf g } rest := by
        simp [Rbac.addRoleGroups, hg]
      rw [hstep]
      exact ih (nodup_sadd h)
    · have hstep : Rbac.addRoleGroups groups role (g :: rest)
          = (role, some ("Group \x27" ++ g ++ "\x27 does not exist")) := by
        simp [Rbac.addRoleGroups, hg]
      rw [hstep]
      exact h

theorem addRoleGroups_ok {groups : List (String × RbacGroupInternal)}
    {gs : List String} :
    ∀ {role : RbacRoleInternal}, (∀ g ∈ gs, mhas groups g = true) →
      Rbac.addRoleGroups groups role gs
        = ({ role with memberOf := saddAll role.memberOf gs }, none) := by
  induction gs with
  | nil => intro role _; rfl
  | cons g rest ih =>
    intro role hall
    have hg : mhas groups g = true := hall g (List.mem_cons_self _ _)
    have hstep : Rbac.addRoleGroups groups role (g :: rest)
        = Rbac.addRoleGroups groups
            { role with memberOf := sadd role.memberOf g } rest := by
      simp [Rbac.addRoleGroups, hg]
    rw [hstep, ih (fun g2 hg2 => hall g2 (List.mem_cons_of_mem _ hg2))]
    rfl

theorem addRoleGroups_fail {groups : List (String × RbacGroupInternal)}
    {pre : List String} {g : String} {post : List String} :
    ∀ {role : RbacRoleInternal}, (∀ x ∈ pre, mhas groups x = true) →
      mhas groups g = false →
      Rbac.addRoleGroups groups role (pre ++ g :: post)
        = ({ role with memberOf := saddAll role.memberOf pre },
           some ("Group \x27" ++ g ++ "\x27 does not exist")) := by
  induction pre with
  | nil =>
    intro role _ hg
    have hstep : Rbac.addRoleGroups groups role ([] ++ g :: post)
        = (role, some ("Group \x27" ++ g ++ "\x27 does not exist")) := by
      simp [Rbac.addRoleGroups, hg]
    rw [hstep]
    rfl
  | cons x rest ih =>
    intro role hall hg
    have hx : mhas groups x = true := hall x (List.mem_cons_self _ _)
    have hstep : Rbac.addRoleGroups groups role ((x :: rest) ++ g :: post)
        = Rbac.addRoleGroups groups
            { role with memberOf := sadd role.memberOf x } (rest ++ g :: post) := by
      simp [Rbac.addRoleGroups, hx]
    rw [hstep, ih (fun y hy => hall y (List.mem_cons_of_mem _ hy)) hg]
    rfl

/-- C3 counterexample: with group g1 existing and gx absent, the call
addRole r [p] [g1, gx] throws the group-not-found error for gx, yet g1
has already been added to the role's memberOf set (and the direct
permission applied), contradicting the claim that no group name from the
argument list is added. -/
theorem addRole_partial_memberOf_cex :
    (Rbac.addRole (Rbac.addGroup (Rbac.empty : Rbac Unit Unit Unit) "g1" [])
        "r" ["p"] ["g1", "gx"]).2 = some "Group \x27gx\x27 does not exist" ∧
    mget (Rbac.addRole (Rbac.addGroup (Rbac.empty : Rbac Unit Unit Unit) "g1" [])
        "r" ["p"] ["g1", "gx"]).1.roles "r"
      = some ⟨["p"], ["g1"]⟩ := by
  constructor
  · decide
  · decide

/-- C3 amended: when some requested group name is missing, addRole throws
the group-not-found error naming the first missing one; the group names
preceding it in the argument list have already been added to the role's
memberOf set, the missing one and the later ones have not, and the
direct permissions have already been applied. -/
theorem addRole_missing_group_spec {α β γ : Type} (st : Rbac α β γ)
    (n : String) (ps pre post : List String) (g : String)
    (hpre : ∀ x ∈ pre, mhas st.groups x = true)
    (hg : mhas st.groups g = false) :
    Rbac.addRole st n ps (pre ++ g :: post) =
      ({ st with roles := mset st.roles n (RbacRoleInternal.mk
          (saddAll ((mget st.roles n).getD ⟨[], []⟩).permissions ps)
          (saddAll ((mget st.roles n).getD ⟨[], []⟩).memberOf pre)) },
       some ("Group \x27" ++ g ++ "\x27 does not exist")) := by
  rw [addRole_eq, addRoleGroups_fail hpre hg]

/-- Witness for the amended C3 at a concrete store. -/
theorem addRole_missing_group_spec_witness :
    Rbac.addRole (Rbac.addGroup (Rbac.empty : Rbac Unit Unit Unit) "g1" [])
        "r" ["p"] (["g1"] ++ "gx" :: []) =
      (⟨[("r", ⟨["p"], ["g1"]⟩)], [("g1", ⟨[]⟩)], []⟩,
       some "Group \x27gx\x27 does not exist") := by
  rw [addRole_missing_group_spec
    (Rbac.addGroup (Rbac.empty : Rbac Unit Unit Unit) "g1" [])
    "r" ["p"] ["g1"] [] "gx" (by decide) (by decide)]
  rfl


/-!  Idempotence of the add operations. -/

theorem addRoleGroups_idem {groups : List (String × RbacGroupInternal)}
    {gs : List String} :
    ∀ {role : RbacRoleInternal},
      Rbac.addRoleGroups groups (Rbac.addRoleGroups groups role gs).1 gs
        = Rbac.addRoleGroups groups role gs := by
  induction gs with
  | nil => intro role; rfl
  | cons g rest ih =>
    intro role
    by_cases hg : mhas groups g
    · have hstep : ∀ r : RbacRoleInternal,
          Rbac.addRoleGroups groups r (g :: rest)
            = Rbac.addRoleGroups groups
                { r with memberOf := sadd r.memberOf g } rest := by
        intro r
        simp [Rbac.addRoleGroups, hg]
      rw [hstep role, hstep]
      have hmem : g ∈ (Rbac.addRoleGroups groups
          { role with memberOf := sadd role.memberOf g } rest).1.memberOf :=
        addRoleGroups_memberOf_mono (mem_sadd.mpr (Or.inr rfl))
      have hsadd : sadd (Rbac.addRoleGroups groups
          { role with memberOf := sadd role.memberOf g } rest).1.memberOf g
            = (Rbac.addRoleGroups groups
                { role with memberOf := sadd role.memberOf g } rest).1.memberOf :=
        sadd_of_mem hmem
      rw [hsadd]
      exact ih
    · have hstep : ∀ r : RbacRoleInternal,
          Rbac.addRoleGroups groups r (g :: rest)
            = (r, some ("Group \x27" ++ g ++ "\x27 does not exist")) := by
        intro r
        simp [Rbac.addRoleGroups, hg]
      rw [hstep role, hstep]

theorem addRole_idem {α β γ : Type} (st : Rbac α β γ) (n : String)
    (ps gs : List String) :
    Rbac.addRole (Rbac.addRole st n ps gs).1 n ps gs
      = Rbac.addRole st n ps gs := by
  rcases hinner : Rbac.addRoleGroups st.groups
      (RbacRoleInternal.mk
        (saddAll ((mget st.roles n).getD ⟨[], []⟩).permissions ps)
        ((mget st.roles n).getD ⟨[], []⟩).memberOf) gs with ⟨role2, err⟩
  have h1 : Rbac.addRole st n ps gs
      = ({ st with roles := mset st.roles n role2 }, err) := by
    rw [addRole_eq, hinner]
  have hperm : role2.permissions
      = saddAll ((mget st.roles n).getD ⟨[], []⟩).permissions ps := by
    have h := @addRoleGroups_permissions st.groups gs
      (RbacRoleInternal.mk
        (saddAll ((mget st.roles n).getD ⟨[], []⟩).permissions ps)
        ((mget st.roles n).getD ⟨[], []⟩).memberOf)
    rw [hinner] at h
    exact h
  have hps : saddAll role2.permissions ps = role2.permissions := by
    rw [hperm, saddAll_saddAll]
  have hidem : Rbac.addRoleGroups st.groups role2 gs = (role2, err) := by
    have h := @addRoleGroups_idem st.groups gs
      (RbacRoleInternal.mk
        (saddAll ((mget st.roles n).getD ⟨[], []⟩).permissions ps)
        ((mget st.roles n).getD ⟨[], []⟩).memberOf)
    rw [hinner] at h
    exact h
  rw [h1, addRole_eq]
  have hroles : ({ st with roles := mset st.roles n role2 } : Rbac α β γ).roles
      = mset st.roles n role2 := rfl
  have hgroups : ({ st with roles := mset st.roles n role2 } : Rbac α β γ).groups
      = st.groups := rfl
  rw [hroles, hgroups, mget_mset_self]
  have hgetD : ((some role2).getD (⟨[], []⟩ : RbacRoleInternal)) = role2 := rfl
  rw [hgetD, hps]
  have hrole2 : RbacRoleInternal.mk role2.permissions role2.memberOf = role2 := rfl
  rw [hrole2, hidem, mset_mset]

theorem addGroup_idem {α β γ : Type} (st : Rbac α β γ) (n : String)
    (ps : List String) :
    Rbac.addGroup (Rbac.addGroup st n ps) n ps = Rbac.addGroup st n ps := by
  have h1 : Rbac.addGroup st n ps
      = { st with groups := mset st.groups n (RbacGroupInternal.mk
          (saddAll ((mget st.groups n).getD ⟨[]⟩).permissions ps)) } := rfl
  rw [h1]
  have h2 : ∀ (st2 : Rbac α β γ), Rbac.addGroup st2 n ps
      = { st2 with groups := mset st2.groups n (RbacGroupInternal.mk
          (saddAll ((mget st2.groups n).getD ⟨[]⟩).permissions ps)) } :=
    fun _ => rfl
  rw [h2]
  have hgroups : ({ st with groups := mset st.groups n (RbacGroupInternal.mk
      (saddAll ((mget st.groups n).getD ⟨[]⟩).permissions ps)) } : Rbac α β γ).groups
      = mset st.groups n (RbacGroupInternal.mk
          (saddAll ((mget st.groups n).getD ⟨[]⟩).permissions ps)) := rfl
  rw [hgroups, mget_mset_self]
  have hgetD : ((some (RbacGroupInternal.mk
      (saddAll ((mget st.groups n).getD ⟨[]⟩).permissions ps))).getD
        (⟨[]⟩ : RbacGroupInternal))
      = RbacGroupInternal.mk (saddAll ((mget st.groups n).getD ⟨[]⟩).permissions ps) := rfl
  rw [hgetD]
  have hperm : (RbacGroupInternal.mk
      (saddAll ((mget st.groups n).getD ⟨[]⟩).permissions ps)).permissions
      = saddAll ((mget st.groups n).getD ⟨[]⟩).permissions ps := rfl
  rw [hperm, saddAll_saddAll, mset_mset]

/-- C8: adding is idempotent and deduplicating: on a fresh store,
addRole r [x, x] followed by addRole r [x] resolves to a single
permission; and repeating any addRole or addGroup call with the same
arguments (outcome included) leaves the store exactly as after the first
call. -/
theorem add_idempotent_spec :
    (Rbac.getPermissions
        (Rbac.addRole
          (Rbac.addRole (Rbac.empty : Rbac Unit Unit Unit) "r" ["x", "x"] []).1
          "r" ["x"] []).1 "r").length = 1 ∧
    (∀ (α β γ : Type) (st : Rbac α β γ) (n : String) (ps gs : List String),
      Rbac.addRole (Rbac.addRole st n ps gs).1 n ps gs
        = Rbac.addRole st n ps gs) ∧
    (∀ (α β γ : Type) (st : Rbac α β γ) (n : String) (ps : List String),
      Rbac.addGroup (Rbac.addGroup st n ps) n ps = Rbac.addGroup st n ps) := by
  refine ⟨by decide, ?_, ?_⟩
  · intro α β γ st n ps gs
    exact addRole_idem st n ps gs
  · intro α β γ st n ps
    exact addGroup_idem st n ps


/-!  removeGroup and its cascade. -/

theorem mdel_of_not_has {α : Type} {m : List (String × α)} {k : String}
    (h : mhas m k = false) : mdel m k = m := by
  unfold mdel
  apply List.filter_eq_self.mpr
  intro p hp
  rw [mhas_eq_false] at h
  have : ¬ p.1 = k := by
    intro he
    exact h (he ▸ List.mem_map_of_mem _ hp)
  simpa using this

theorem removeGroup_roles_eq {α β γ : Type} (st : Rbac α β γ) (g : String) :
    (Rbac.removeGroup st g).roles = st.roles.map
      (fun p => (p.1, RbacRoleInternal.mk p.2.permissions
        (sdel p.2.memberOf g))) := rfl

theorem removeGroup_groups_eq {α β γ : Type} (st : Rbac α β γ) (g : String) :
    (Rbac.removeGroup st g).groups = mdel st.groups g := rfl

/-- C5: removeGroup deletes the group and strips its name from every
role's memberOf set; afterwards any permission obtainable only through
that group no longer resolves, while role existence is untouched (no
role is deleted); when the group is absent the group map is unchanged. -/
theorem removeGroup_cascade_spec {α β γ : Type} (st : Rbac α β γ)
    (g : String) :
    Rbac.hasGroup (Rbac.removeGroup st g) g = false ∧
    (Rbac.hasGroup st g = false → (Rbac.removeGroup st g).groups = st.groups) ∧
    (∀ n role, (n, role) ∈ (Rbac.removeGroup st g).roles → g ∉ role.memberOf) ∧
    (∀ r, Rbac.hasRole (Rbac.removeGroup st g) r = Rbac.hasRole st r) ∧
    (∀ r p, Rbac.hasPermission st r p = true →
      (∀ role, mget st.roles r = some role →
        p ∉ role.permissions ∧
        ∀ g2 ∈ role.memberOf, g2 ≠ g →
          ∀ grp, mget st.groups g2 = some grp → p ∉ grp.permissions) →
      Rbac.hasPermission (Rbac.removeGroup st g) r p = false) := by
  refine ⟨?_, ?_, ?_, ?_, ?_⟩
  · show mhas (Rbac.removeGroup st g).groups g = false
    rw [removeGroup_groups_eq]
    rw [mhas_mdel]
    simp
  · intro h
    rw [removeGroup_groups_eq]
    exact mdel_of_not_has h
  · intro n role hmem
    rw [removeGroup_roles_eq] at hmem
    rcases List.mem_map.mp hmem with ⟨q, hq, heq⟩
    have hrole : role = RbacRoleInternal.mk q.2.permissions (sdel q.2.memberOf g) := by
      have := congrArg Prod.snd heq
      exact this.symm
    rw [hrole]
    intro hg
    exact absurd (mem_sdel.mp hg).2 (by simp)
  · intro r
    show mhas (Rbac.removeGroup st g).roles r = mhas st.roles r
    rw [removeGroup_roles_eq]
    by_cases h : mhas st.roles r
    · rw [h]
      rw [mhas_iff] at h ⊢
      rw [keys_map_keyfix (f := fun p : String × RbacRoleInternal => (p.1,
        RbacRoleInternal.mk p.2.permissions (sdel p.2.memberOf g))) (fun p => rfl)]
      exact h
    · have h2 : mhas st.roles r = false := by simpa using h
      rw [h2]
      rw [mhas_eq_false] at h2 ⊢
      rw [keys_map_keyfix (f := fun p : String × RbacRoleInternal => (p.1,
        RbacRoleInternal.mk p.2.permissions (sdel p.2.memberOf g))) (fun p => rfl)]
      exact h2
  · intro r p hbefore hno
    rcases hb : Rbac.hasPermission (Rbac.removeGroup st g) r p with _ | _
    · rfl
    · exfalso
      rcases hasPermission_iff.mp hb with ⟨role2, hget2, hcases⟩
      rw [removeGroup_roles_eq] at hget2
      rw [mget_map_keyfix (f := fun p : String × RbacRoleInternal => (p.1,
        RbacRoleInternal.mk p.2.permissions (sdel p.2.memberOf g)))
        (fun p => rfl)] at hget2
      rcases hget : mget st.roles r with _ | role
      · rw [hget] at hget2
        cases hget2
      · rw [hget] at hget2
        have hrole2 : role2 = RbacRoleInternal.mk role.permissions
            (sdel role.memberOf g) := by
          have := hget2
          simp only [Option.map_some] at this
          exact (Option.some_inj.mp this).symm
        have hnorole := hno role hget
        rcases hcases with hown | ⟨g2, hg2, grp, hgetgrp, hpgrp⟩
        · rw [hrole2] at hown
          exact hnorole.1 hown
        · rw [hrole2] at hg2
          have hg2mem : g2 ∈ role.memberOf := (mem_sdel.mp hg2).1
          have hg2ne : g2 ≠ g := (mem_sdel.mp hg2).2
          rw [removeGroup_groups_eq, mget_mdel, if_neg hg2ne] at hgetgrp
          exact hnorole.2 g2 hg2mem hg2ne grp hgetgrp hpgrp

/-- Witness for C5: removing the only group of a role kills the inherited
permission but keeps the role. -/
theorem removeGroup_cascade_spec_witness :
    Rbac.hasPermission (Rbac.removeGroup egCascade "g") "r" "p" = false ∧
    Rbac.hasRole (Rbac.removeGroup egCascade "g") "r"
      = Rbac.hasRole egCascade "r" := by
  constructor
  · apply (removeGroup_cascade_spec egCascade "g").2.2.2.2 "r" "p" (by decide)
    intro role hrole
    have hr : role = RbacRoleInternal.mk [] ["g"] := by
      have h0 : mget egCascade.roles "r"
          = some (RbacRoleInternal.mk [] ["g"]) := by decide
      rw [h0] at hrole
      exact (Option.some_inj.mp hrole).symm
    subst hr
    refine ⟨by decide, ?_⟩
    intro g2 hg2 hne grp hgrp
    have : g2 = "g" := by simpa using hg2
    exact absurd this hne
  · exact (removeGroup_cascade_spec egCascade "g").2.2.2.1 "r"


/-!  Lemmas about restore. -/

theorem beq_str_comm (a b : String) : (a == b) = (b == a) := by
  by_cases h : a = b
  · simp [h]
  · have h2 : ¬ b = a := fun he => h he.symm
    simp [h, h2]

theorem addGroup_roles_eq {α β γ : Type} (st : Rbac α β γ) (n : String)
    (ps : List String) : (Rbac.addGroup st n ps).roles = st.roles := rfl

theorem addRole_groups_eq {α β γ : Type} (st : Rbac α β γ) (n : String)
    (ps gs : List String) : (Rbac.addRole st n ps gs).1.groups = st.groups := rfl

theorem addRole_snd_eq {α β γ : Type} (st : Rbac α β γ) (n : String)
    (ps gs : List String) :
    (Rbac.addRole st n ps gs).2 = (Rbac.addRoleGroups st.groups
      (RbacRoleInternal.mk
        (saddAll ((mget st.roles n).getD ⟨[], []⟩).permissions ps)
        ((mget st.roles n).getD ⟨[], []⟩).memberOf) gs).2 := rfl

theorem addRole_pair {α β γ : Type} (st : Rbac α β γ) (n : String)
    (ps gs : List String) :
    Rbac.addRole st n ps gs
      = ((Rbac.addRole st n ps gs).1, (Rbac.addRole st n ps gs).2) := rfl

theorem addGroup_groups_eq {α β γ : Type} (st : Rbac α β γ) (n : String)
    (ps : List String) :
    (Rbac.addGroup st n ps).groups = mset st.groups n (RbacGroupInternal.mk
      (saddAll ((mget st.groups n).getD ⟨[]⟩).permissions ps)) := rfl

theorem mhas_groups_fold {α β γ : Type} (gl : List (String × Rbac.DumpGroup)) :
    ∀ (st : Rbac α β γ) (k : String),
      mhas (gl.foldl (fun st p => Rbac.addGroup st p.1
          (p.2.permissions.getD [])) st).groups k
        = (mhas st.groups k || gl.any (fun p => p.1 == k)) := by
  induction gl with
  | nil => intro st k; simp
  | cons q rest ih =>
    intro st k
    rw [List.foldl_cons, ih, addGroup_groups_eq, mhas_mset, List.any_cons,
      beq_str_comm k q.1, Bool.or_assoc]

theorem addRoleGroups_error {groups : List (String × RbacGroupInternal)}
    {gs : List String} :
    ∀ {role : RbacRoleInternal}, (∃ g ∈ gs, mhas groups g = false) →
      ∃ g, g ∈ gs ∧ mhas groups g = false ∧
        (Rbac.addRoleGroups groups role gs).2
          = some ("Group \x27" ++ g ++ "\x27 does not exist") := by
  induction gs with
  | nil =>
    intro role h
    rcases h with ⟨g, hg, _⟩
    exact absurd hg (List.not_mem_nil g)
  | cons g rest ih =>
    intro role hex
    by_cases hg : mhas groups g
    · have hexr : ∃ g2 ∈ rest, mhas groups g2 = false := by
        rcases hex with ⟨g2, hg2mem, hg2f⟩
        rcases List.mem_cons.mp hg2mem with rfl | hmem
        · rw [hg] at hg2f
          cases hg2f
        · exact ⟨g2, hmem, hg2f⟩
      have hstep : Rbac.addRoleGroups groups role (g :: rest)
          = Rbac.addRoleGroups groups
              { role with memberOf := sadd role.memberOf g } rest := by
        simp [Rbac.addRoleGroups, hg]
      rw [hstep]
      rcases ih hexr with ⟨g2, hmem, hf, herr⟩
      exact ⟨g2, List.mem_cons_of_mem _ hmem, hf, herr⟩
    · have hgf : mhas groups g = false := by simpa using hg
      have hstep : Rbac.addRoleGroups groups role (g :: rest)
          = (role, some ("Group \x27" ++ g ++ "\x27 does not exist")) := by
        simp [Rbac.addRoleGroups, hgf]
      rw [hstep]
      exact ⟨g, List.mem_cons_self _ _, hgf, rfl⟩

theorem restoreRoles_cons_ok {α β γ : Type} {st st2 : Rbac α β γ}
    {n : String} {o : Rbac.DumpRole} {rest : List (String × Rbac.DumpRole)}
    (h : Rbac.addRole st n (o.permissions.getD []) (o.memberOf.getD [])
      = (st2, none)) :
    Rbac.restoreRoles st ((n, o) :: rest) = Rbac.restoreRoles st2 rest := by
  show (match Rbac.addRole st n (o.permissions.getD [])
      (o.memberOf.getD []) with
    | (st2, none) => Rbac.restoreRoles st2 rest
    | (_, some e) =>
      Except.error ("Unable to restore dump: Error: " ++ e))
    = Rbac.restoreRoles st2 rest
  rw [h]

theorem restoreRoles_cons_err {α β γ : Type} {st st2 : Rbac α β γ}
    {n : String} {o : Rbac.DumpRole} {rest : List (String × Rbac.DumpRole)}
    {e : String}
    (h : Rbac.addRole st n (o.permissions.getD []) (o.memberOf.getD [])
      = (st2, some e)) :
    Rbac.restoreRoles st ((n, o) :: rest)
      = Except.error ("Unable to restore dump: Error: " ++ e) := by
  show (match Rbac.addRole st n (o.permissions.getD [])
      (o.memberOf.getD []) with
    | (st2, none) => Rbac.restoreRoles st2 rest
    | (_, some e) =>
      Except.error ("Unable to restore dump: Error: " ++ e))
    = Except.error ("Unable to restore dump: Error: " ++ e)
  rw [h]

theorem restoreRoles_ok {α β γ : Type} :
    ∀ (rl : List (String × Rbac.DumpRole)) (st : Rbac α β γ),
      (∀ n o, (n, o) ∈ rl → ∀ g ∈ o.memberOf.getD [],
        mhas st.groups g = true) →
      ∃ st2, Rbac.restoreRoles st rl = Except.ok st2 := by
  intro rl
  induction rl with
  | nil => intro st _; exact ⟨st, rfl⟩
  | cons q rest ih =>
    intro st hall
    rcases q with ⟨n, o⟩
    have hmem : ∀ g ∈ o.memberOf.getD [], mhas st.groups g = true :=
      hall n o (List.mem_cons_self _ _)
    have h2 : (Rbac.addRole st n (o.permissions.getD [])
        (o.memberOf.getD [])).2 = none := by
      rw [addRole_snd_eq, addRoleGroups_ok hmem]
    have hres : Rbac.addRole st n (o.permissions.getD [])
        (o.memberOf.getD [])
        = ((Rbac.addRole st n (o.permissions.getD [])
            (o.memberOf.getD [])).1, none) := by
      rw [← h2]
    have hrest : ∀ n2 o2, (n2, o2) ∈ rest → ∀ g ∈ o2.memberOf.getD [],
        mhas (Rbac.addRole st n (o.permissions.getD [])
          (o.memberOf.getD [])).1.groups g = true := by
      intro n2 o2 hmem2 g hg
      rw [addRole_groups_eq]
      exact hall n2 o2 (List.mem_cons_of_mem _ hmem2) g hg
    rcases ih (Rbac.addRole st n (o.permissions.getD [])
        (o.memberOf.getD [])).1 hrest with ⟨st3, hst3⟩
    exact ⟨st3, (restoreRoles_cons_ok hres).trans hst3⟩

theorem restoreRoles_error {α β γ : Type} :
    ∀ (rl : List (String × Rbac.DumpRole)) (st : Rbac α β γ),
      (∃ n o, (n, o) ∈ rl ∧ ∃ g ∈ o.memberOf.getD [],
        mhas st.groups g = false) →
      ∃ g, mhas st.groups g = false ∧
        (∃ n o, (n, o) ∈ rl ∧ g ∈ o.memberOf.getD []) ∧
        Rbac.restoreRoles st rl
          = Except.error ("Unable to restore dump: Error: "
              ++ ("Group \x27" ++ g ++ "\x27 does not exist")) := by
  intro rl
  induction rl with
  | nil =>
    intro st h
    rcases h with ⟨n, o, hmem, _⟩
    exact absurd hmem (List.not_mem_nil _)
  | cons q rest ih =>
    intro st hex
    rcases q with ⟨n, o⟩
    by_cases hbad : ∃ g ∈ o.memberOf.getD [], mhas st.groups g = false
    · rcases @addRoleGroups_error st.groups (o.memberOf.getD [])
        (RbacRoleInternal.mk
          (saddAll ((mget st.roles n).getD ⟨[], []⟩).permissions
            (o.permissions.getD []))
          ((mget st.roles n).getD ⟨[], []⟩).memberOf) hbad
        with ⟨g, hgmem, hgf, herr⟩
      have h2 : (Rbac.addRole st n (o.permissions.getD [])
          (o.memberOf.getD [])).2
          = some ("Group \x27" ++ g ++ "\x27 does not exist") := by
        rw [addRole_snd_eq]
        exact herr
      have hres : Rbac.addRole st n (o.permissions.getD [])
          (o.memberOf.getD [])
          = ((Rbac.addRole st n (o.permissions.getD [])
              (o.memberOf.getD [])).1,
             some ("Group \x27" ++ g ++ "\x27 does not exist")) := by
        rw [← h2]
      exact ⟨g, hgf, ⟨n, o, List.mem_cons_self _ _, hgmem⟩,
        restoreRoles_cons_err hres⟩
    · have hallhead : ∀ g ∈ o.memberOf.getD [], mhas st.groups g = true := by
        intro g hg
        by_contra hc
        exact hbad ⟨g, hg, by simpa using hc⟩
      have hexr : ∃ n2 o2, (n2, o2) ∈ rest ∧ ∃ g ∈ o2.memberOf.getD [],
          mhas st.groups g = false := by
        rcases hex with ⟨n2, o2, hmem2, hg2⟩
        rcases List.mem_cons.mp hmem2 with heq | hmem2
        · exfalso
          rcases hg2 with ⟨g, hgmem, hgf⟩
          have ho2 : o2 = o := congrArg Prod.snd heq
          rw [ho2] at hgmem
          rw [hallhead g hgmem] at hgf
          cases hgf
        · exact ⟨n2, o2, hmem2, hg2⟩
      have h2 : (Rbac.addRole st n (o.permissions.getD [])
          (o.memberOf.getD [])).2 = none := by
        rw [addRole_snd_eq, addRoleGroups_ok hallhead]
      have hres : Rbac.addRole st n (o.permissions.getD [])
          (o.memberOf.getD [])
          = ((Rbac.addRole st n (o.permissions.getD [])
              (o.memberOf.getD [])).1, none) := by
        rw [← h2]
      have hgroups2 : (Rbac.addRole st n (o.permissions.getD [])
          (o.memberOf.getD [])).1.groups = st.groups :=
        addRole_groups_eq st n (o.permissions.getD []) (o.memberOf.getD [])
      rcases ih (Rbac.addRole st n (o.permissions.getD [])
          (o.memberOf.getD [])).1 (by rw [hgroups2]; exact hexr)
        with ⟨g, hgf, hginroles, herr⟩
      rw [hgroups2] at hgf
      exact ⟨g, hgf,
        (by rcases hginroles with ⟨n2, o2, hm, hgm⟩
            exact ⟨n2, o2, List.mem_cons_of_mem _ hm, hgm⟩),
        (restoreRoles_cons_ok hres).trans herr⟩

theorem restore_def {α β γ : Type} (d : Rbac.RbacDump) :
    Rbac.restore (α := α) (β := β) (γ := γ) d
      = Rbac.restoreRoles (d.groups.foldl
          (fun st p => Rbac.addGroup st p.1 (p.2.permissions.getD []))
          Rbac.empty) d.roles := rfl

/-- C6 counterexample: restoring a dump whose single role references the
missing group g fails with the wrapped message
"Unable to restore dump: Error: Group 'g' does not exist", which is not
the same error message a live addRole call raises for the same missing
group. -/
theorem restore_wrapped_error_cex :
    Rbac.restore (α := Unit) (β := Unit) (γ := Unit) egBadDump
      = Except.error "Unable to restore dump: Error: Group \x27g\x27 does not exist" ∧
    (Rbac.addRole (Rbac.empty : Rbac Unit Unit Unit) "r" [] ["g"]).2
      = some "Group \x27g\x27 does not exist" ∧
    ("Unable to restore dump: Error: Group \x27g\x27 does not exist" : String)
      ≠ "Group \x27g\x27 does not exist" := by
  refine ⟨rfl, by decide, by decide⟩

/-- C6 amended: restore materializes the whole groups section before any
role (a dump every one of whose memberOf references is defined anywhere
in its groups section restores successfully), and when some role lists a
group missing from the groups section it fails with a wrapped error
"Unable to restore dump: Error: ..." embedding the very group-not-found
message that a live addRole call raises for that group. -/
theorem restore_groups_first_spec {α β γ : Type} (d : Rbac.RbacDump) :
    ((∀ n o, (n, o) ∈ d.roles → ∀ g ∈ o.memberOf.getD [],
        d.groups.any (fun q => q.1 == g) = true) →
      ∃ st2, Rbac.restore (α := α) (β := β) (γ := γ) d = Except.ok st2) ∧
    ((∃ n o, (n, o) ∈ d.roles ∧ ∃ g ∈ o.memberOf.getD [],
        d.groups.any (fun q => q.1 == g) = false) →
      ∃ g, d.groups.any (fun q => q.1 == g) = false ∧
        (∃ n o, (n, o) ∈ d.roles ∧ g ∈ o.memberOf.getD []) ∧
        Rbac.restore (α := α) (β := β) (γ := γ) d
          = Except.error ("Unable to restore dump: Error: "
              ++ ("Group \x27" ++ g ++ "\x27 does not exist")) ∧
        ∀ (st : Rbac α β γ) (n : String) (ps : List String),
          mhas st.groups g = false →
          (Rbac.addRole st n ps [g]).2
            = some ("Group \x27" ++ g ++ "\x27 does not exist")) := by
  have hfold : ∀ k, mhas ((d.groups.foldl
      (fun st p => Rbac.addGroup st p.1 (p.2.permissions.getD []))
      (Rbac.empty : Rbac α β γ))).groups k
      = d.groups.any (fun q => q.1 == k) := by
    intro k
    rw [mhas_groups_fold]
    rfl
  constructor
  · intro hall
    rw [restore_def]
    apply restoreRoles_ok
    intro n o hmem g hg
    rw [hfold]
    exact hall n o hmem g hg
  · intro hex
    rw [restore_def]
    have hex2 : ∃ n o, (n, o) ∈ d.roles ∧ ∃ g ∈ o.memberOf.getD [],
        mhas ((d.groups.foldl
          (fun st p => Rbac.addGroup st p.1 (p.2.permissions.getD []))
          (Rbac.empty : Rbac α β γ))).groups g = false := by
      rcases hex with ⟨n, o, hmem, g, hgmem, hgany⟩
      refine ⟨n, o, hmem, g, hgmem, ?_⟩
      rw [hfold]
      exact hgany
    rcases restoreRoles_error d.roles _ hex2 with ⟨g, hgf, hgin, herr⟩
    rw [hfold] at hgf
    refine ⟨g, hgf, hgin, herr, ?_⟩
    intro st n ps hfalse
    rw [addRole_snd_eq]
    simp [Rbac.addRoleGroups, hfalse]

/-- Witness for the amended C6: a dump whose only role references its
only group restores; the bad dump fails with the wrapped message. -/
theorem restore_groups_first_spec_witness :
    (∃ st2, Rbac.restore (α := Unit) (β := Unit) (γ := Unit) egGoodDump
      = Except.ok st2) ∧
    Rbac.restore (α := Unit) (β := Unit) (γ := Unit) egBadDump
      = Except.error ("Unable to restore dump: Error: "
          ++ ("Group \x27" ++ "g" ++ "\x27 does not exist")) := by
  constructor
  · apply (restore_groups_first_spec (α := Unit) (β := Unit) (γ := Unit)
      egGoodDump).1
    intro n o hmem g hg
    have hno : (n, o) = ("r", Rbac.DumpRole.mk (some ["p"]) (some ["g"])) := by
      simpa [egGoodDump] using hmem
    have ho : o = Rbac.DumpRole.mk (some ["p"]) (some ["g"]) :=
      congrArg Prod.snd hno
    rw [ho] at hg
    have hgg : g = "g" := by simpa using hg
    rw [hgg]
    decide
  · have hbadhyp : ∃ n o, (n, o) ∈ egBadDump.roles ∧
        ∃ g ∈ o.memberOf.getD [],
          egBadDump.groups.any (fun q => q.1 == g) = false :=
      ⟨"r", Rbac.DumpRole.mk none (some ["g"]), by decide, "g",
        by decide, by decide⟩
    rcases (restore_groups_first_spec (α := Unit) (β := Unit) (γ := Unit)
        egBadDump).2 hbadhyp with ⟨g, hgf, hgin, herr, _⟩
    rcases hgin with ⟨n, o, hmem, hgmem⟩
    have hno : (n, o) = ("r", Rbac.DumpRole.mk none (some ["g"])) := by
      simpa [egBadDump] using hmem
    have ho : o = Rbac.DumpRole.mk none (some ["g"]) :=
      congrArg Prod.snd hno
    rw [ho] at hgmem
    have hgg : g = "g" := by simpa using hgmem
    rw [hgg] at herr
    exact herr


/-!  The well-formedness invariant is preserved by every mutation. -/

theorem addRole_roles_eq {α β γ : Type} (st : Rbac α β γ) (n : String)
    (ps gs : List String) :
    (Rbac.addRole st n ps gs).1.roles = mset st.roles n
      (Rbac.addRoleGroups st.groups
        (RbacRoleInternal.mk
          (saddAll ((mget st.roles n).getD ⟨[], []⟩).permissions ps)
          ((mget st.roles n).getD ⟨[], []⟩).memberOf) gs).1 := rfl

theorem role0_facts {α β γ : Type} {st : Rbac α β γ} (h : WF st)
    (n : String) :
    ((mget st.roles n).getD ⟨[], []⟩).permissions.Nodup ∧
    ((mget st.roles n).getD ⟨[], []⟩).memberOf.Nodup ∧
    (∀ g ∈ ((mget st.roles n).getD ⟨[], []⟩).memberOf,
      mhas st.groups g = true) := by
  rcases hg : mget st.roles n with _ | role
  · refine ⟨by simp, by simp, by simp⟩
  · have hmem := mget_mem hg
    exact ⟨h.rolePermsNodup n role hmem, h.roleMemberNodup n role hmem,
      h.memberOfExists n role hmem⟩

theorem group0_facts {α β γ : Type} {st : Rbac α β γ} (h : WF st)
    (n : String) :
    ((mget st.groups n).getD ⟨[]⟩).permissions.Nodup := by
  rcases hg : mget st.groups n with _ | grp
  · simp
  · exact h.groupPermsNodup n grp (mget_mem hg)

theorem wf_empty {α β γ : Type} : WF (Rbac.empty : Rbac α β γ) := by
  constructor <;> simp [Rbac.empty, keys]

theorem wf_addRole {α β γ : Type} {st : Rbac α β γ} (h : WF st)
    (n : String) (ps gs : List String) : WF (Rbac.addRole st n ps gs).1 := by
  rcases role0_facts h n with ⟨hp0, hm0, hx0⟩
  constructor
  · rw [addRole_roles_eq]
    exact nodup_keys_mset h.rolesKeysNodup
  · exact h.groupsKeysNodup
  · intro k r hkr
    rw [addRole_roles_eq] at hkr
    rcases mem_mset hkr with hold | hnew
    · exact h.rolePermsNodup k r hold
    · have hr : r = (Rbac.addRoleGroups st.groups
          (RbacRoleInternal.mk
            (saddAll ((mget st.roles n).getD ⟨[], []⟩).permissions ps)
            ((mget st.roles n).getD ⟨[], []⟩).memberOf) gs).1 :=
        congrArg Prod.snd hnew
      rw [hr, addRoleGroups_permissions]
      exact nodup_saddAll hp0
  · intro k r hkr
    rw [addRole_roles_eq] at hkr
    rcases mem_mset hkr with hold | hnew
    · exact h.roleMemberNodup k r hold
    · have hr : r = (Rbac.addRoleGroups st.groups
          (RbacRoleInternal.mk
            (saddAll ((mget st.roles n).getD ⟨[], []⟩).permissions ps)
            ((mget st.roles n).getD ⟨[], []⟩).memberOf) gs).1 :=
        congrArg Prod.snd hnew
      rw [hr]
      exact addRoleGroups_memberOf_nodup hm0
  · intro k grp hk
    exact h.groupPermsNodup k grp hk
  · intro k r hkr g hg
    rw [addRole_roles_eq] at hkr
    rcases mem_mset hkr with hold | hnew
    · exact h.memberOfExists k r hold g hg
    · have hr : r = (Rbac.addRoleGroups st.groups
          (RbacRoleInternal.mk
            (saddAll ((mget st.roles n).getD ⟨[], []⟩).permissions ps)
            ((mget st.roles n).getD ⟨[], []⟩).memberOf) gs).1 :=
        congrArg Prod.snd hnew
      rw [hr] at hg
      rcases addRoleGroups_memberOf_sub hg with hin | hhas
      · exact hx0 g hin
      · exact hhas

theorem wf_removeRolePermissions {α β γ : Type} {st : Rbac α β γ}
    (h : WF st) (n : String) (ps : List String) :
    WF (Rbac.removeRolePermissions st n ps) := by
  rcases hg : mget st.roles n with _ | role
  · have : Rbac.removeRolePermissions st n ps = st := by
      simp [Rbac.removeRolePermissions, hg]
    rw [this]
    exact h
  · have heq : Rbac.removeRolePermissions st n ps
        = { st with roles := mset st.roles n (RbacRoleInternal.mk
            (ps.foldl sdel role.permissions) role.memberOf) } := by
      simp [Rbac.removeRolePermissions, hg]
    rw [heq]
    have hmemrole := mget_mem hg
    constructor
    · exact nodup_keys_mset h.rolesKeysNodup
    · exact h.groupsKeysNodup
    · intro k r hkr
      rcases mem_mset hkr with hold | hnew
      · exact h.rolePermsNodup k r hold
      · have hr : r = RbacRoleInternal.mk (ps.foldl sdel role.permissions)
            role.memberOf := congrArg Prod.snd hnew
        rw [hr]
        exact nodup_foldl_sdel (h.rolePermsNodup n role hmemrole)
    · intro k r hkr
      rcases mem_mset hkr with hold | hnew
      · exact h.roleMemberNodup k r hold
      · have hr : r = RbacRoleInternal.mk (ps.foldl sdel role.permissions)
            role.memberOf := congrArg Prod.snd hnew
        rw [hr]
        exact h.roleMemberNodup n role hmemrole
    · intro k grp hk
      exact h.groupPermsNodup k grp hk
    · intro k r hkr g hgmem
      rcases mem_mset hkr with hold | hnew
      · exact h.memberOfExists k r hold g hgmem
      · have hr : r = RbacRoleInternal.mk (ps.foldl sdel role.permissions)
            role.memberOf := congrArg Prod.snd hnew
        rw [hr] at hgmem
        exact h.memberOfExists n role hmemrole g hgmem

theorem wf_removeRole {α β γ : Type} {st : Rbac α β γ} (h : WF st)
    (n : String) : WF (Rbac.removeRole st n) := by
  constructor
  · exact nodup_keys_mdel h.rolesKeysNodup
  · exact h.groupsKeysNodup
  · intro k r hkr
    exact h.rolePermsNodup k r (mem_mdel hkr)
  · intro k r hkr
    exact h.roleMemberNodup k r (mem_mdel hkr)
  · intro k grp hk
    exact h.groupPermsNodup k grp hk
  · intro k r hkr g hgmem
    exact h.memberOfExists k r (mem_mdel hkr) g hgmem

theorem wf_addGroup {α β γ : Type} {st : Rbac α β γ} (h : WF st)
    (n : String) (ps : List String) : WF (Rbac.addGroup st n ps) := by
  have hp0 := group0_facts h n
  constructor
  · exact h.rolesKeysNodup
  · rw [addGroup_groups_eq]
    exact nodup_keys_mset h.groupsKeysNodup
  · intro k r hkr
    exact h.rolePermsNodup k r hkr
  · intro k r hkr
    exact h.roleMemberNodup k r hkr
  · intro k grp hk
    rw [addGroup_groups_eq] at hk
    rcases mem_mset hk with hold | hnew
    · exact h.groupPermsNodup k grp hold
    · have hr : grp = RbacGroupInternal.mk
          (saddAll ((mget st.groups n).getD ⟨[]⟩).permissions ps) :=
        congrArg Prod.snd hnew
      rw [hr]
      exact nodup_saddAll hp0
  · intro k r hkr g hgmem
    rw [addGroup_groups_eq, mhas_mset, h.memberOfExists k r hkr g hgmem]
    rfl

theorem wf_removeGroupPermissions {α β γ : Type} {st : Rbac α β γ}
    (h : WF st) (n : String) (ps : List String) :
    WF (Rbac.removeGroupPermissions st n ps) := by
  rcases hg : mget st.groups n with _ | grp
  · have : Rbac.removeGroupPermissions st n ps = st := by
      simp [Rbac.removeGroupPermissions, hg]
    rw [this]
    exact h
  · have heq : Rbac.removeGroupPermissions st n ps
        = { st with groups := mset st.groups n (RbacGroupInternal.mk
            (ps.foldl sdel grp.permissions)) } := by
      simp [Rbac.removeGroupPermissions, hg]
    rw [heq]
    have hmemgrp := mget_mem hg
    constructor
    · exact h.rolesKeysNodup
    · exact nodup_keys_mset h.groupsKeysNodup
    · intro k r hkr
      exact h.rolePermsNodup k r hkr
    · intro k r hkr
      exact h.roleMemberNodup k r hkr
    · intro k g2 hk
      rcases mem_mset hk with hold | hnew
      · exact h.groupPermsNodup k g2 hold
      · have hr : g2 = RbacGroupInternal.mk (ps.foldl sdel grp.permissions) :=
          congrArg Prod.snd hnew
        rw [hr]
        exact nodup_foldl_sdel (h.groupPermsNodup n grp hmemgrp)
    · intro k r hkr g hgmem
      rw [mhas_mset, h.memberOfExists k r hkr g hgmem]
      rfl

theorem wf_removeGroup {α β γ : Type} {st : Rbac α β γ} (h : WF st)
    (n : String) : WF (Rbac.removeGroup st n) := by
  constructor
  · rw [removeGroup_roles_eq]
    have := keys_map_keyfix (m := st.roles)
      (f := fun p : String × RbacRoleInternal => (p.1,
        RbacRoleInternal.mk p.2.permissions (sdel p.2.memberOf n)))
      (fun p => rfl)
    rw [this]
    exact h.rolesKeysNodup
  · rw [removeGroup_groups_eq]
    exact nodup_keys_mdel h.groupsKeysNodup
  · intro k r hkr
    rw [removeGroup_roles_eq] at hkr
    rcases List.mem_map.mp hkr with ⟨q, hq, heq⟩
    have hr : r = RbacRoleInternal.mk q.2.permissions (sdel q.2.memberOf n) :=
      (congrArg Prod.snd heq).symm
    rw [hr]
    exact h.rolePermsNodup q.1 q.2 hq
  · intro k r hkr
    rw [removeGroup_roles_eq] at hkr
    rcases List.mem_map.mp hkr with ⟨q, hq, heq⟩
    have hr : r = RbacRoleInternal.mk q.2.permissions (sdel q.2.memberOf n) :=
      (congrArg Prod.snd heq).symm
    rw [hr]
    exact nodup_sdel (h.roleMemberNodup q.1 q.2 hq)
  · intro k grp hk
    rw [removeGroup_groups_eq] at hk
    exact h.groupPermsNodup k grp (mem_mdel hk)
  · intro k r hkr g hgmem
    rw [removeGroup_roles_eq] at hkr
    rw [removeGroup_groups_eq]
    rcases List.mem_map.mp hkr with ⟨q, hq, heq⟩
    have hr : r = RbacRoleInternal.mk q.2.permissions (sdel q.2.memberOf n) :=
      (congrArg Prod.snd heq).symm
    rw [hr] at hgmem
    have hgm := mem_sdel.mp hgmem
    rw [mhas_mdel, if_neg hgm.2]
    exact h.memberOfExists q.1 q.2 hq g hgm.1

theorem wf_addRoleToGroup {α β γ : Type} {st : Rbac α β γ} (h : WF st)
    (rn gn : String) : WF (Rbac.addRoleToGroup st rn gn).1 := by
  by_cases hg : mhas st.groups gn
  · have heq : (Rbac.addRoleToGroup st rn gn).1
        = { st with roles := mset st.roles rn (RbacRoleInternal.mk
            ((mget st.roles rn).getD ⟨[], []⟩).permissions
            (sadd ((mget st.roles rn).getD ⟨[], []⟩).memberOf gn)) } := by
      simp [Rbac.addRoleToGroup, hg]
    rcases role0_facts h rn with ⟨hp0, hm0, hx0⟩
    rw [heq]
    constructor
    · exact nodup_keys_mset h.rolesKeysNodup
    · exact h.groupsKeysNodup
    · intro k r hkr
      rcases mem_mset hkr with hold | hnew
      · exact h.rolePermsNodup k r hold
      · have hr : r = RbacRoleInternal.mk
            ((mget st.roles rn).getD ⟨[], []⟩).permissions
            (sadd ((mget st.roles rn).getD ⟨[], []⟩).memberOf gn) :=
          congrArg Prod.snd hnew
        rw [hr]
        exact hp0
    · intro k r hkr
      rcases mem_mset hkr with hold | hnew
      · exact h.roleMemberNodup k r hold
      · have hr : r = RbacRoleInternal.mk
            ((mget st.roles rn).getD ⟨[], []⟩).permissions
            (sadd ((mget st.roles rn).getD ⟨[], []⟩).memberOf gn) :=
          congrArg Prod.snd hnew
        rw [hr]
        exact nodup_sadd hm0
    · intro k grp hk
      exact h.groupPermsNodup k grp hk
    · intro k r hkr g hgmem
      rcases mem_mset hkr with hold | hnew
      · exact h.memberOfExists k r hold g hgmem
      · have hr : r = RbacRoleInternal.mk
            ((mget st.roles rn).getD ⟨[], []⟩).permissions
            (sadd ((mget st.roles rn).getD ⟨[], []⟩).memberOf gn) :=
          congrArg Prod.snd hnew
        rw [hr] at hgmem
        rcases mem_sadd.mp hgmem with hin | rfl
        · exact hx0 g hin
        · exact hg
  · have heq : (Rbac.addRoleToGroup st rn gn).1 = st := by
      simp [Rbac.addRoleToGroup, hg]
    rw [heq]
    exact h

theorem wf_removeRoleFromGroup {α β γ : Type} {st : Rbac α β γ} (h : WF st)
    (rn gn : String) : WF (Rbac.removeRoleFromGroup st rn gn) := by
  rcases hg : mget st.roles rn with _ | role
  · have : Rbac.removeRoleFromGroup st rn gn = st := by
      simp [Rbac.removeRoleFromGroup, hg]
    rw [this]
    exact h
  · have heq : Rbac.removeRoleFromGroup st rn gn
        = { st with roles := mset st.roles rn (RbacRoleInternal.mk
            role.permissions (sdel role.memberOf gn)) } := by
      simp [Rbac.removeRoleFromGroup, hg]
    rw [heq]
    have hmemrole := mget_mem hg
    constructor
    · exact nodup_keys_mset h.rolesKeysNodup
    · exact h.groupsKeysNodup
    · intro k r hkr
      rcases mem_mset hkr with hold | hnew
      · exact h.rolePermsNodup k r hold
      · have hr : r = RbacRoleInternal.mk role.permissions
            (sdel role.memberOf gn) := congrArg Prod.snd hnew
        rw [hr]
        exact h.rolePermsNodup rn role hmemrole
    · intro k r hkr
      rcases mem_mset hkr with hold | hnew
      · exact h.roleMemberNodup k r hold
      · have hr : r = RbacRoleInternal.mk role.permissions
            (sdel role.memberOf gn) := congrArg Prod.snd hnew
        rw [hr]
        exact nodup_sdel (h.roleMemberNodup rn role hmemrole)
    · intro k grp hk
      exact h.groupPermsNodup k grp hk
    · intro k r hkr g hgmem
      rcases mem_mset hkr with hold | hnew
      · exact h.memberOfExists k r hold g hgmem
      · have hr : r = RbacRoleInternal.mk role.permissions
            (sdel role.memberOf gn) := congrArg Prod.snd hnew
        rw [hr] at hgmem
        exact h.memberOfExists rn role hmemrole g (mem_sdel.mp hgmem).1

theorem wf_addRule {α β γ : Type} {st : Rbac α β γ} (h : WF st)
    (p : String) (f : RbacRuleFunction α β γ) : WF (Rbac.addRule st p f) := by
  constructor
  · exact h.rolesKeysNodup
  · exact h.groupsKeysNodup
  · intro k r hkr
    exact h.rolePermsNodup k r hkr
  · intro k r hkr
    exact h.roleMemberNodup k r hkr
  · intro k grp hk
    exact h.groupPermsNodup k grp hk
  · intro k r hkr g hgmem
    exact h.memberOfExists k r hkr g hgmem

theorem wf_removeRule {α β γ : Type} {st : Rbac α β γ} (h : WF st)
    (p : String) : WF (Rbac.removeRule st p) := by
  constructor
  · exact h.rolesKeysNodup
  · exact h.groupsKeysNodup
  · intro k r hkr
    exact h.rolePermsNodup k r hkr
  · intro k r hkr
    exact h.roleMemberNodup k r hkr
  · intro k grp hk
    exact h.groupPermsNodup k grp hk
  · intro k r hkr g hgmem
    exact h.memberOfExists k r hkr g hgmem

theorem reachable_wf {α β γ : Type} {st : Rbac α β γ}
    (h : Reachable st) : WF st := by
  induction h with
  | base => exact wf_empty
  | addRoleStep st n ps gs _ ih => exact wf_addRole ih n ps gs
  | removeRolePermissionsStep st n ps _ ih =>
    exact wf_removeRolePermissions ih n ps
  | removeRoleStep st n _ ih => exact wf_removeRole ih n
  | addGroupStep st n ps _ ih => exact wf_addGroup ih n ps
  | removeGroupPermissionsStep st n ps _ ih =>
    exact wf_removeGroupPermissions ih n ps
  | removeGroupStep st n _ ih => exact wf_removeGroup ih n
  | addRoleToGroupStep st rn gn _ ih => exact wf_addRoleToGroup ih rn gn
  | removeRoleFromGroupStep st rn gn _ ih =>
    exact wf_removeRoleFromGroup ih rn gn
  | addRuleStep st p f _ ih => exact wf_addRule ih p f
  | removeRuleStep st p _ ih => exact wf_removeRule ih p


/-!  The dump/restore round trip on well-formed stores. -/

theorem addGroup_eq {α β γ : Type} (st : Rbac α β γ) (n : String)
    (ps : List String) :
    Rbac.addGroup st n ps = { st with groups := mset st.groups n (RbacGroupInternal.mk
      (saddAll ((mget st.groups n).getD ⟨[]⟩).permissions ps)) } := rfl

theorem addGroup_fresh {α β γ : Type} {st : Rbac α β γ} {n : String}
    {ps : List String} (h : mhas st.groups n = false) (hnd : ps.Nodup) :
    Rbac.addGroup st n ps
      = { st with groups := st.groups ++ [(n, ⟨ps⟩)] } := by
  have hget : mget st.groups n = none := mget_eq_none.mpr h
  rw [addGroup_eq st n ps, hget]
  have h1 : ((none : Option RbacGroupInternal).getD ⟨[]⟩).permissions
      = [] := rfl
  rw [h1, saddAll_nil hnd]
  unfold mset
  rw [if_neg (by simp [h])]

theorem restore_groups_append {α β γ : Type} :
    ∀ (gl : List (String × RbacGroupInternal)) (st : Rbac α β γ),
      (keys gl).Nodup →
      (∀ n g, (n, g) ∈ gl → g.permissions.Nodup) →
      (∀ k ∈ keys gl, mhas st.groups k = false) →
      (gl.map (fun p => (p.1, Rbac.DumpGroup.mk (some p.2.permissions)))).foldl
        (fun st p => Rbac.addGroup st p.1 (p.2.permissions.getD [])) st
        = { st with groups := st.groups ++ gl } := by
  intro gl
  induction gl with
  | nil =>
    intro st _ _ _
    show st = { st with groups := st.groups ++ [] }
    rw [List.append_nil]
  | cons q rest ih =>
    intro st hnd hperms hfresh
    rcases q with ⟨n, g⟩
    have hnd2 : (n :: keys rest).Nodup := hnd
    have hndrest : (keys rest).Nodup := (List.nodup_cons.mp hnd2).2
    have hnnotin : n ∉ keys rest := (List.nodup_cons.mp hnd2).1
    show (rest.map (fun p => (p.1, Rbac.DumpGroup.mk
        (some p.2.permissions)))).foldl
        (fun st p => Rbac.addGroup st p.1 (p.2.permissions.getD []))
        (Rbac.addGroup st n g.permissions)
      = { st with groups := st.groups ++ (n, g) :: rest }
    rw [addGroup_fresh (hfresh n (by simp [keys]))
      (hperms n g (List.mem_cons_self _ _))]
    have hfresh2 : ∀ k ∈ keys rest,
        mhas ({ st with groups := st.groups ++
          [(n, (⟨g.permissions⟩ : RbacGroupInternal))] } : Rbac α β γ).groups
          k = false := by
      intro k hk
      show mhas (st.groups ++ [(n, (⟨g.permissions⟩ : RbacGroupInternal))]) k
        = false
      rw [mhas_append]
      have h1 : mhas st.groups k = false := by
        apply hfresh k
        show k ∈ n :: keys rest
        exact List.mem_cons_of_mem _ hk
      have hkn : ¬ n = k := fun he => hnnotin (he ▸ hk)
      have h2 : mhas [(n, (⟨g.permissions⟩ : RbacGroupInternal))] k
          = false := by
        simp [mhas]
        exact hkn
      rw [h1, h2]
      rfl
    rw [ih _ hndrest
      (fun n2 g2 hm => hperms n2 g2 (List.mem_cons_of_mem _ hm)) hfresh2]
    show ({ st with groups :=
        (st.groups ++ [(n, (⟨g.permissions⟩ : RbacGroupInternal))]) ++ rest }
      : Rbac α β γ) = _
    rw [List.append_assoc]
    rfl


theorem addRole_fresh_ok {α β γ : Type} {st : Rbac α β γ} {n : String}
    {ps gs : List String} (h : mhas st.roles n = false) (hps : ps.Nodup)
    (hgs : gs.Nodup) (hall : ∀ g ∈ gs, mhas st.groups g = true) :
    Rbac.addRole st n ps gs
      = ({ st with roles := st.roles ++ [(n, ⟨ps, gs⟩)] }, none) := by
  have hget : mget st.roles n = none := mget_eq_none.mpr h
  rw [addRole_eq, hget]
  have h1 : ((none : Option RbacRoleInternal).getD ⟨[], []⟩).permissions
      = [] := rfl
  have h2 : ((none : Option RbacRoleInternal).getD ⟨[], []⟩).memberOf
      = [] := rfl
  rw [h1, h2, saddAll_nil hps, addRoleGroups_ok hall]
  show ({ st with roles := mset st.roles n (RbacRoleInternal.mk ps
      (saddAll [] gs)) }, (none : Option String)) = _
  rw [saddAll_nil hgs]
  unfold mset
  rw [if_neg (by simp [h])]

theorem restore_roles_append {α β γ : Type} :
    ∀ (rl : List (String × RbacRoleInternal)) (st : Rbac α β γ),
      (keys rl).Nodup →
      (∀ n r, (n, r) ∈ rl → r.permissions.Nodup ∧ r.memberOf.Nodup ∧
        ∀ g ∈ r.memberOf, mhas st.groups g = true) →
      (∀ k ∈ keys rl, mhas st.roles k = false) →
      Rbac.restoreRoles st (rl.map (fun p => (p.1,
        Rbac.DumpRole.mk (some p.2.permissions) (some p.2.memberOf))))
        = Except.ok { st with roles := st.roles ++ rl } := by
  intro rl
  induction rl with
  | nil =>
    intro st _ _ _
    show Except.ok st = Except.ok { st with roles := st.roles ++ [] }
    rw [List.append_nil]
  | cons q rest ih =>
    intro st hnd hfacts hfresh
    rcases q with ⟨n, r⟩
    have hnd2 : (n :: keys rest).Nodup := hnd
    have hndrest : (keys rest).Nodup := (List.nodup_cons.mp hnd2).2
    have hnnotin : n ∉ keys rest := (List.nodup_cons.mp hnd2).1
    rcases hfacts n r (List.mem_cons_self _ _) with ⟨hrp, hrm, hrx⟩
    have hok : Rbac.addRole st n
        ((Rbac.DumpRole.mk (some r.permissions)
          (some r.memberOf)).permissions.getD [])
        ((Rbac.DumpRole.mk (some r.permissions)
          (some r.memberOf)).memberOf.getD [])
        = ({ st with roles := st.roles ++ [(n, r)] }, none) := by
      show Rbac.addRole st n r.permissions r.memberOf = _
      exact addRole_fresh_ok (hfresh n (by simp [keys])) hrp hrm hrx
    rw [List.map_cons, restoreRoles_cons_ok hok]
    have hfresh2 : ∀ k ∈ keys rest,
        mhas ({ st with roles := st.roles ++ [(n, r)] }
          : Rbac α β γ).roles k = false := by
      intro k hk
      show mhas (st.roles ++ [(n, r)]) k = false
      rw [mhas_append]
      have h1 : mhas st.roles k = false := by
        apply hfresh k
        show k ∈ n :: keys rest
        exact List.mem_cons_of_mem _ hk
      have hkn : ¬ n = k := fun he => hnnotin (he ▸ hk)
      have h2 : mhas [(n, r)] k = false := by
        simp [mhas]
        exact hkn
      rw [h1, h2]
      rfl
    have hfacts2 : ∀ n2 r2, (n2, r2) ∈ rest →
        r2.permissions.Nodup ∧ r2.memberOf.Nodup ∧ ∀ g ∈ r2.memberOf,
          mhas ({ st with roles := st.roles ++ [(n, r)] }
            : Rbac α β γ).groups g = true := by
      intro n2 r2 hm
      exact hfacts n2 r2 (List.mem_cons_of_mem _ hm)
    rw [ih _ hndrest hfacts2 hfresh2]
    show Except.ok ({ st with roles :=
        (st.roles ++ [(n, r)]) ++ rest } : Rbac α β γ) = _
    rw [List.append_assoc]
    rfl

theorem restore_toJSON {α β γ : Type} {st : Rbac α β γ} (h : WF st) :
    Rbac.restore (α := α) (β := β) (γ := γ) (Rbac.toJSON st)
      = Except.ok ⟨st.roles, st.groups, []⟩ := by
  rw [restore_def]
  have hg : ((Rbac.toJSON st).groups.foldl
      (fun st2 p => Rbac.addGroup st2 p.1 (p.2.permissions.getD []))
      (Rbac.empty : Rbac α β γ))
      = { (Rbac.empty : Rbac α β γ) with groups :=
          (Rbac.empty : Rbac α β γ).groups ++ st.groups } :=
    restore_groups_append st.groups Rbac.empty h.groupsKeysNodup
      (fun n g hm => h.groupPermsNodup n g hm) (fun k _ => rfl)
  rw [hg]
  have hr := restore_roles_append st.roles
    ({ (Rbac.empty : Rbac α β γ) with groups :=
        (Rbac.empty : Rbac α β γ).groups ++ st.groups })
    h.rolesKeysNodup
    (fun n r hm => ⟨h.rolePermsNodup n r hm, h.roleMemberNodup n r hm,
      fun g hgm => h.memberOfExists n r hm g hgm⟩)
    (fun k _ => rfl)
  exact hr

/-- C4: restoring the dump of any store built by a sequence of mutations
succeeds and yields a store with identical hasPermission results for
every role and permission, and with no registered rules even when the
original store had some. -/
theorem dump_restore_roundtrip {α β γ : Type} (st : Rbac α β γ)
    (h : Reachable st) :
    ∃ st2, Rbac.restore (α := α) (β := β) (γ := γ) (Rbac.toJSON st)
        = Except.ok st2 ∧
      (∀ r p, Rbac.hasPermission st2 r p = Rbac.hasPermission st r p) ∧
      st2.rules = [] := by
  have hwf := reachable_wf h
  exact ⟨⟨st.roles, st.groups, []⟩, restore_toJSON hwf,
    fun r p => rfl, rfl⟩

/-- Witness for C4: the round trip at a concrete store built by adds and
removes, with a rule registered before dumping. -/
theorem dump_restore_roundtrip_witness :
    ∃ st2, Rbac.restore (α := Unit) (β := Unit) (γ := Unit)
        (Rbac.toJSON egBuilt) = Except.ok st2 ∧
      Rbac.hasPermission st2 "r1" "a" = Rbac.hasPermission egBuilt "r1" "a" ∧
      st2.rules = [] := by
  have hreach : Reachable egBuilt := by
    apply Reachable.addRuleStep
    apply Reachable.removeGroupStep
    apply Reachable.removeRoleStep
    apply Reachable.addGroupStep
    apply Reachable.removeGroupPermissionsStep
    apply Reachable.removeRolePermissionsStep
    apply Reachable.addRoleToGroupStep
    apply Reachable.addRoleStep
    apply Reachable.addGroupStep
    apply Reachable.addGroupStep
    exact Reachable.base
  rcases dump_restore_roundtrip egBuilt hreach with ⟨st2, h1, h2, h3⟩
  exact ⟨st2, h1, h2 "r1" "a", h3⟩


/-!  Freshness of the set returned by getPermissions (C7). -/

theorem collectH_sid {groups : List (String × HGroup)} {gs : List String}
    (b : Nat) :
    ∀ {out : HSet} {c : Nat}, b ≤ out.sid → out.sid < c →
      b ≤ (collectGroupPermsH groups out c gs).1.sid ∧
      (collectGroupPermsH groups out c gs).1.sid
        < (collectGroupPermsH groups out c gs).2 := by
  induction gs with
  | nil => intro out c h1 h2; exact ⟨h1, h2⟩
  | cons g rest ih =>
    intro out c h1 h2
    rcases hg : mget groups g with _ | grp
    · have hstep : collectGroupPermsH groups out c (g :: rest)
          = collectGroupPermsH groups out c rest := by
        simp [collectGroupPermsH, hg]
      rw [hstep]
      exact ih h1 h2
    · have hstep : collectGroupPermsH groups out c (g :: rest)
          = collectGroupPermsH groups
              ⟨c, sunion out.elems grp.permissions.elems⟩ (c + 1) rest := by
        simp [collectGroupPermsH, hg, hunion]
      rw [hstep]
      exact ih (Nat.le_trans h1 (Nat.le_of_lt h2)) (Nat.lt_succ_self c)

theorem getPermissionsH_none {st : HStore} {r : String} {c : Nat}
    (h : mget st.roles r = none) :
    getPermissionsH st r c = (⟨c, []⟩, c + 1) := by
  simp [getPermissionsH, h]

theorem getPermissionsH_some {st : HStore} {r : String} {c : Nat}
    {role : HRole} (h : mget st.roles r = some role) :
    getPermissionsH st r c
      = hunion (collectGroupPermsH st.groups ⟨c, []⟩ (c + 1)
          role.memberOf.elems).1 role.permissions
        (collectGroupPermsH st.groups ⟨c, []⟩ (c + 1)
          role.memberOf.elems).2 := by
  simp [getPermissionsH, h]

theorem getPermissionsH_sid {st : HStore} {r : String} {c : Nat} :
    c ≤ (getPermissionsH st r c).1.sid := by
  rcases hrole : mget st.roles r with _ | role
  · rw [getPermissionsH_none hrole]
  · rw [getPermissionsH_some hrole]
    obtain ⟨h1, h2⟩ := @collectH_sid st.groups role.memberOf.elems c
      ⟨c, []⟩ (c + 1) (Nat.le_refl c) (Nat.lt_succ_self c)
    show c ≤ (collectGroupPermsH st.groups ⟨c, []⟩ (c + 1)
      role.memberOf.elems).2
    omega

theorem HSet_write_id {s : HSet} {i : Nat} {f : List String → List String}
    (h : ¬ s.sid = i) : s.write i f = s := by
  simp [HSet.write, h]

theorem HStore_write_id {st : HStore} {i : Nat}
    {f : List String → List String} (h : i ∉ st.setIds) :
    st.write i f = st := by
  have hrp : ∀ p ∈ st.roles, ¬ p.2.permissions.sid = i := by
    intro p hp he
    apply h
    rw [← he]
    unfold HStore.setIds
    exact List.mem_append_left _ (List.mem_append_left _
      (List.mem_map_of_mem _ hp))
  have hrm : ∀ p ∈ st.roles, ¬ p.2.memberOf.sid = i := by
    intro p hp he
    apply h
    rw [← he]
    unfold HStore.setIds
    exact List.mem_append_left _ (List.mem_append_right _
      (List.mem_map_of_mem _ hp))
  have hgp : ∀ p ∈ st.groups, ¬ p.2.permissions.sid = i := by
    intro p hp he
    apply h
    rw [← he]
    unfold HStore.setIds
    exact List.mem_append_right _ (List.mem_map_of_mem _ hp)
  unfold HStore.write
  have hroles : st.roles.map (fun p => (p.1,
      HRole.mk (p.2.permissions.write i f) (p.2.memberOf.write i f)))
      = st.roles := by
    have hpt : ∀ p ∈ st.roles, (p.1, HRole.mk (p.2.permissions.write i f)
        (p.2.memberOf.write i f)) = p := by
      intro p hp
      rw [HSet_write_id (hrp p hp), HSet_write_id (hrm p hp)]
    rw [List.map_congr_left hpt, List.map_id']
  have hgroups : st.groups.map (fun p => (p.1,
      HGroup.mk (p.2.permissions.write i f))) = st.groups := by
    have hpt : ∀ p ∈ st.groups, (p.1,
        HGroup.mk (p.2.permissions.write i f)) = p := by
      intro p hp
      rw [HSet_write_id (hgp p hp)]
    rw [List.map_congr_left hpt, List.map_id']
  rw [hroles, hgroups]

theorem collectH_elems {st : HStore} {gs : List String} :
    ∀ {out : HSet} {c : Nat},
      (collectGroupPermsH st.groups out c gs).1.elems
        = Rbac.collectGroupPerms st.toRbac.groups out.elems gs := by
  induction gs with
  | nil => intro out c; rfl
  | cons g rest ih =>
    intro out c
    have hmap : mget st.toRbac.groups g
        = (mget st.groups g).map
            (fun v => RbacGroupInternal.mk v.permissions.elems) := by
      show mget (st.groups.map (fun p => (p.1,
        RbacGroupInternal.mk p.2.permissions.elems))) g = _
      rw [mget_map_keyfix (f := fun p : String × HGroup => (p.1,
        RbacGroupInternal.mk p.2.permissions.elems)) (fun p => rfl)]
    rcases hg : mget st.groups g with _ | grp
    · have hstepH : collectGroupPermsH st.groups out c (g :: rest)
          = collectGroupPermsH st.groups out c rest := by
        simp [collectGroupPermsH, hg]
      have hgetP : mget st.toRbac.groups g = none := by
        rw [hmap, hg]
        rfl
      have hstepP : Rbac.collectGroupPerms st.toRbac.groups out.elems
          (g :: rest) = Rbac.collectGroupPerms st.toRbac.groups out.elems
            rest := by
        simp [Rbac.collectGroupPerms, hgetP]
      rw [hstepH, hstepP]
      exact ih
    · have hstepH : collectGroupPermsH st.groups out c (g :: rest)
          = collectGroupPermsH st.groups
              ⟨c, sunion out.elems grp.permissions.elems⟩ (c + 1) rest := by
        simp [collectGroupPermsH, hg, hunion]
      have hgetP : mget st.toRbac.groups g
          = some (RbacGroupInternal.mk grp.permissions.elems) := by
        rw [hmap, hg]
        rfl
      have hstepP : Rbac.collectGroupPerms st.toRbac.groups out.elems
          (g :: rest)
          = Rbac.collectGroupPerms st.toRbac.groups
              (sunion out.elems grp.permissions.elems) rest := by
        simp [Rbac.collectGroupPerms, hgetP]
      rw [hstepH, hstepP]
      exact ih
  
theorem getPermissionsH_elems {st : HStore} {r : String} {c : Nat} :
    (getPermissionsH st r c).1.elems = Rbac.getPermissions st.toRbac r := by
  have hmap : mget st.toRbac.roles r
      = (mget st.roles r).map (fun v => RbacRoleInternal.mk
          v.permissions.elems v.memberOf.elems) := by
    show mget (st.roles.map (fun p => (p.1, RbacRoleInternal.mk
      p.2.permissions.elems p.2.memberOf.elems))) r = _
    rw [mget_map_keyfix (f := fun p : String × HRole => (p.1,
      RbacRoleInternal.mk p.2.permissions.elems p.2.memberOf.elems))
      (fun p => rfl)]
  rcases hrole : mget st.roles r with _ | role
  · rw [getPermissionsH_none hrole]
    have hgetP : mget st.toRbac.roles r = none := by
      rw [hmap, hrole]
      rfl
    have : Rbac.getPermissions st.toRbac r = [] := by
      simp [Rbac.getPermissions, hgetP]
    rw [this]
  · rw [getPermissionsH_some hrole]
    have hgetP : mget st.toRbac.roles r = some (RbacRoleInternal.mk
        role.permissions.elems role.memberOf.elems) := by
      rw [hmap, hrole]
      rfl
    have hstepP : Rbac.getPermissions st.toRbac r
        = sunion (Rbac.collectGroupPerms st.toRbac.groups []
            role.memberOf.elems) role.permissions.elems := by
      simp [Rbac.getPermissions, hgetP]
    rw [hstepP]
    show sunion (collectGroupPermsH st.groups ⟨c, []⟩ (c + 1)
      role.memberOf.elems).1.elems role.permissions.elems = _
    rw [collectH_elems]

/-- C7: the set built by getPermissions is a fresh allocation, never one
of the sets owned by the store: its identity is outside the store's, so
a caller-side mutation written through it leaves every role, group (and
trivially every rule, which the query path never touches) unchanged, and
all subsequent queries unaffected; the fresh set's elements are exactly
the resolved permission set of the plain model.  Queries themselves
mutate nothing: in this pure embedding every query is a function of the
store that returns no modified store, mirroring a read-only code path. -/
theorem query_snapshot_frame_spec (st : HStore) (r : String) (c : Nat)
    (hc : ∀ i ∈ st.setIds, i < c) :
    ((getPermissionsH st r c).1.sid ∉ st.setIds) ∧
    (∀ f, st.write (getPermissionsH st r c).1.sid f = st) ∧
    (∀ f r2 p, Rbac.hasPermission
        ((st.write (getPermissionsH st r c).1.sid f).toRbac) r2 p
      = Rbac.hasPermission st.toRbac r2 p) ∧
    (getPermissionsH st r c).1.elems = Rbac.getPermissions st.toRbac r := by
  have hsid : c ≤ (getPermissionsH st r c).1.sid := getPermissionsH_sid
  have hnot : (getPermissionsH st r c).1.sid ∉ st.setIds := by
    intro hin
    have := hc _ hin
    omega
  refine ⟨hnot, fun f => HStore_write_id hnot, ?_, getPermissionsH_elems⟩
  intro f r2 p
  rw [HStore_write_id hnot]

/-- Witness for C7 at a concrete instrumented store with three owned
sets (identities 0, 1, 2) and counter 3. -/
theorem query_snapshot_frame_spec_witness :
    ((getPermissionsH egHStore "r" 3).1.sid ∉ egHStore.setIds) ∧
    egHStore.write (getPermissionsH egHStore "r" 3).1.sid (fun _ => [])
      = egHStore ∧
    (getPermissionsH egHStore "r" 3).1.elems
      = Rbac.getPermissions egHStore.toRbac "r" := by
  have h := query_snapshot_frame_spec egHStore "r" 3 (by decide)
  exact ⟨h.1, h.2.1 (fun _ => []), h.2.2.2⟩

end RbacSpec
